import Mathlib

/-!
# Verification of the ZnInit constructor-synthesis and descriptor engine

Shallow embedding of the two core modules of the ZnInit repository:

* `zninit/descriptor/__init__.py` — the `Descriptor` managed attribute
  (`__get__`, `__set__`, frozen side table, `get_dict`);
* `zninit/core/__init__.py` — the synthesized constructor `auto_init`,
  the error formatters `get_args_type_error` / `get_init_type_error`,
  the positional-argument handler `_handle_args`, the subclass decision
  in `ZnInit.__init_subclass__`, and `ZnInit.__repr__`.

Python values are modelled by the inductive `PyVal` (which includes the
`Empty` sentinel class as a value, since `value is Empty` is a value-level
test in the source), exceptions by `PyError`, and instance state by
explicit dictionaries (association lists, faithful to `instance.__dict__`
whose keys are unique).  Mutating operations return the new state
explicitly; operations that can raise but leave observable state behind
return the state reached at the moment of the raise, exactly as a Python
exception leaves `self` behind.
-/

/-- Python values occurring in the modelled code.  `empty` is the
`zninit.descriptor.Empty` sentinel class used as the "no default" marker;
it is a first-class value because the source tests `value is Empty`. -/
inductive PyVal : Type where
  | pyNone : PyVal
  | pyInt : Int → PyVal
  | pyStr : String → PyVal
  | pyBool : Bool → PyVal
  | empty : PyVal
deriving DecidableEq

/-- Python exceptions raised by the modelled code, carrying their message. -/
inductive PyError : Type where
  | attributeError : String → PyError
  | typeError : String → PyError
  | keyError : String → PyError
deriving DecidableEq

/-- `instance.__dict__` and `**kwargs`: association lists with (in all
reachable states) unique keys, ordered as Python dicts are (insertion
order). -/
abbrev Dict := List (String × PyVal)

/-- `d[k]` lookup (`dict.get`). -/
def alookup : Dict → String → Option PyVal
  | [], _ => none
  | (k, v) :: rest, key => if k = key then some v else alookup rest key

/-- `d.pop(k)`: returns the removed value and the remaining dict, or
`none` when the key is absent (Python raises `KeyError`; callers of this
model inspect the `Option`). -/
def apop : Dict → String → Option (PyVal × Dict)
  | [], _ => none
  | (k, v) :: rest, key =>
    if k = key then some (v, rest)
    else (apop rest key).map fun p => (p.1, (k, v) :: p.2)

/-- `d[k] = v`: update in place when the key exists, else append
(insertion-ordered Python dict assignment). -/
def aset : Dict → String → PyVal → Dict
  | [], key, v => [(key, v)]
  | (k, w) :: rest, key, v =>
    if k = key then (k, v) :: rest else (k, w) :: aset rest key v

/-- `d1.update(d2)`. -/
def aupdate (d1 d2 : Dict) : Dict :=
  d2.foldl (fun acc p => aset acc p.1 p.2) d1

/-- Python's builtin `repr` on the modelled values: the default
`repr_func` of a `Descriptor`. -/
def pyRepr : PyVal → String
  | PyVal.pyNone => "None"
  | PyVal.pyInt n => toString n
  | PyVal.pyStr s => "'" ++ s ++ "'"
  | PyVal.pyBool b => if b then "True" else "False"
  | PyVal.empty => "<class 'zninit.descriptor.Empty'>"

/-- The managed attribute `zninit.descriptor.Descriptor`, restricted to
the fields the modelled operations read.  `default = PyVal.empty` encodes
`default=Empty` (no default).  `on_setattr = none` encodes
`on_setattr=None`; otherwise the transform may itself raise.
`annotation` is the resolved type annotation as the predicate that
`typeguard.check_type` applies when `check_types` is set.  `owner` is the
declaring class name recorded by `__set_name__`. -/
structure Descriptor : Type where
  name : String
  owner : Option String := none
  default : PyVal := PyVal.empty
  use_repr : Bool := true
  get_repr : PyVal → Except PyError String := fun v => Except.ok (pyRepr v)
  check_types : Bool := false
  annotation : PyVal → Bool := fun _ => true
  frozen : Bool := false
  on_setattr : Option (PyVal → Except PyError PyVal) := none

/-- Result of `Descriptor.__get__`: either the descriptor object itself
(class-level access with `instance is None`) or a stored/default value. -/
inductive GetResult : Type where
  | descrip : GetResult
  | value : PyVal → GetResult
deriving DecidableEq

/-- `Descriptor.__get__` with a bound instance, given the instance's class
name (the source formats the error from `instance.__class__.__name__`) and
its `__dict__`:
`value = instance.__dict__.get(self.name, self.default)`; raise
`AttributeError` when `value is Empty`. -/
def Descriptor.getOn (d : Descriptor) (instClsName : String) (dict : Dict) :
    Except PyError PyVal :=
  let value := (alookup dict d.name).getD d.default
  if value = PyVal.empty then
    Except.error (PyError.attributeError
      ("'" ++ instClsName ++ "." ++ d.name ++ "' is not set"))
  else Except.ok value

/-- `Descriptor.__get__(self, instance, owner)`: `instance is None` returns
the descriptor itself, otherwise defer to `getOn`. -/
def Descriptor.get (d : Descriptor) (inst : Option (String × Dict)) :
    Except PyError GetResult :=
  match inst with
  | none => Except.ok GetResult.descrip
  | some (cn, dict) => (d.getOn cn dict).map GetResult.value

/-- The value produced by `self.on_setattr(value)` when configured, else
the value itself. -/
def Descriptor.onSetRes (d : Descriptor) (v : PyVal) : Except PyError PyVal :=
  match d.on_setattr with
  | none => Except.ok v
  | some f => f v

/-- `Descriptor.__set__` on instance `id` of a multi-instance system.
`tab` is this descriptor's `_frozen` weak side table, modelled as the list
of instance identities recorded `True`.  Returns the (possibly unchanged)
table and instance dict together with the raised error, mirroring the
statement order of the source: frozen check, `on_setattr`, type check,
store, then freeze. -/
def Descriptor.setOn (d : Descriptor) (tab : List Nat) (id : Nat)
    (dict : Dict) (v : PyVal) : List Nat × Dict × Option PyError :=
  if tab.contains id then
    (tab, dict, some (PyError.typeError
      ("Frozen attribute '" ++ d.name ++ "' can not be changed.")))
  else
    match d.onSetRes v with
    | Except.error e => (tab, dict, some e)
    | Except.ok v' =>
      if d.check_types && !(d.annotation v') then
        (tab, dict, some (PyError.typeError
          ("type of " ++ d.name ++ " must match the annotation")))
      else
        ((if d.frozen then id :: tab else tab), aset dict d.name v', none)

/-- `Descriptor.get_dict(instance)`: `{descriptor.name: getattr(instance,
descriptor.name)}` over the descriptors of the instance's class, reading
through `__get__`. -/
def get_dict (descs : List Descriptor) (instClsName : String) (dict : Dict) :
    Except PyError Dict :=
  match descs with
  | [] => Except.ok []
  | d :: rest =>
    match d.getOn instClsName dict with
    | Except.error e => Except.error e
    | Except.ok v =>
      match get_dict rest instClsName dict with
      | Except.error e => Except.error e
      | Except.ok m => Except.ok ((d.name, v) :: m)

/-- `get_args_type_error(args, cls_name, uses_auto_init)` from
`zninit/core/__init__.py`, taking `len(args)` as a number. -/
def get_args_type_error (numArgs : Nat) (clsName : String)
    (usesAutoInit : Bool) : PyError :=
  if usesAutoInit then
    PyError.typeError
      (clsName ++ ".__init__() takes 1 positional argument but " ++
        toString (numArgs + 1) ++ " were given")
  else
    PyError.typeError
      ("super(" ++ clsName ++
        ", self).__init__() takes 1 positional argument but " ++
        toString (numArgs + 1) ++ " were given")

/-- `"', '".join(required_keys[:-1])` for the plural missing-argument
message. -/
def joinQuoted : List String → String
  | [] => ""
  | [k] => k
  | k :: rest => k ++ "', '" ++ joinQuoted rest

/-- `get_init_type_error(required_keys, cls_name, uses_auto_init)` from
`zninit/core/__init__.py`. -/
def get_init_type_error (requiredKeys : List String) (clsName : String)
    (usesAutoInit : Bool) : PyError :=
  match requiredKeys with
  | [k] =>
    if usesAutoInit then
      PyError.typeError
        (clsName ++
          ".__init__() missing 1 required keyword-only argument: '" ++
          k ++ "'")
    else
      PyError.typeError
        ("super(" ++ clsName ++
          ", self).__init__() missing 1 required keyword-only argument: '" ++
          k ++ "'")
  | ks =>
    if usesAutoInit then
      PyError.typeError
        (clsName ++ ".__init__() missing " ++ toString ks.length ++
          " required keyword-only arguments: '" ++ joinQuoted ks.dropLast ++
          "' and '" ++ ks.getLastD "" ++ "'")
    else
      PyError.typeError
        ("super(" ++ clsName ++ ", self).__init__() missing " ++
          toString ks.length ++ " required keyword-only arguments: '" ++
          joinQuoted ks.dropLast ++ "' and '" ++ ks.getLastD "" ++ "'")

/-- The positional-binding loop of `_handle_args`: for each positional
value, fail when the target name already has a keyword value, else assign
it.  The source indexes `kwarg_names[idx]`; the length guard has already
ensured enough names. -/
def handleArgsGo : List PyVal → List String → Dict → Except PyError Dict
  | [], _, kwargs => Except.ok kwargs
  | _ :: _, [], kwargs => Except.ok kwargs
  | v :: vs, n :: ns, kwargs =>
    if (alookup kwargs n).isSome then
      Except.error (PyError.typeError
        ("got multiple values for argument '" ++ n ++ "'"))
    else handleArgsGo vs ns (aset kwargs n v)

/-- `_handle_args(args, kwargs, kwarg_names, cls_name)`. -/
def handle_args (args : List PyVal) (kwargs : Dict) (kwargNames : List String)
    (clsName : String) : Except PyError Dict :=
  if args.length > kwargNames.length then
    Except.error (PyError.typeError
      (clsName ++ ".__init__() takes " ++ toString kwargNames.length ++
        " positional arguments but " ++ toString args.length ++ " were given"))
  else handleArgsGo args kwargNames kwargs

/-- Observable side effects of one run of the synthesized constructor:
attribute writes performed through `setattr` on the instance, the explicit
delegation `super_init(self, **kwargs)` with the remaining keyword
arguments, and the post-construction hook invocations. -/
inductive Event : Type where
  | write : String → PyVal → Event
  | superInit : Dict → Event
  | hook : String → Event
deriving DecidableEq

/-- State of the single instance being constructed: its `__dict__`, the
set of field names whose descriptor `_frozen` table records this instance,
and the trace of events so far. -/
structure Sys : Type where
  dict : Dict := []
  frozen : List String := []
  trace : List Event := []
deriving DecidableEq

/-- Everything `auto_init` reads from the class and its configuration:
the class name, `_priority_kwargs_`, `allow_args`, the
`uses_auto_init` marker found on `self.__init__`, the required/defaulted
partition computed by `_get_auto_init_kwargs`, the descriptors reachable
by `setattr`, the behaviour of the bound `super_init` (returning the
ancestor-performed attribute writes, or raising), and which of the three
post-construction hooks the class hierarchy defines.  `ZnInit` itself
always defines `_post_init_`, so only the two optional hooks are
recorded. -/
structure ClassSpec : Type where
  clsName : String
  priority : Option (List String) := none
  allowArgs : Bool := true
  usesAutoInit : Bool := true
  kwargsNoDefault : List String := []
  kwargsWithDefault : Dict := []
  descs : List Descriptor := []
  superBehavior : Dict → Except PyError Dict := fun kw =>
    match kw with
    | [] => Except.ok []
    | (k, _) :: _ => Except.error (PyError.typeError
        ("ZnInit.__init__() got an unexpected keyword argument '" ++ k ++ "'"))
  definesDunderPostInit : Bool := false
  definesPlainPostInit : Bool := false

/-- `setattr(self, key, value)`: route through the class's descriptor of
that name when there is one (Python data-descriptor protocol), else a
plain `__dict__` write.  A successful write appends a `write` event. -/
def objSetAttr (cfg : ClassSpec) (st : Sys) (key : String) (v : PyVal) :
    Sys × Option PyError :=
  match cfg.descs.find? (fun d => d.name = key) with
  | some d =>
    if st.frozen.contains key then
      (st, some (PyError.typeError
        ("Frozen attribute '" ++ d.name ++ "' can not be changed.")))
    else
      match d.onSetRes v with
      | Except.error e => (st, some e)
      | Except.ok v' =>
        if d.check_types && !(d.annotation v') then
          (st, some (PyError.typeError
            ("type of " ++ d.name ++ " must match the annotation")))
        else
          ({ dict := aset st.dict key v',
             frozen := if d.frozen then key :: st.frozen else st.frozen,
             trace := st.trace ++ [Event.write key v'] }, none)
  | none =>
    ({ st with
        dict := aset st.dict key v,
        trace := st.trace ++ [Event.write key v] }, none)

/-- The `_priority_kwargs_` loop of `auto_init`: for each listed name in
order, when present in `kwargs`, pop it and `setattr` it immediately,
recording the name in `priority_kwargs`.  Returns the reached state, the
reduced `kwargs`, the recorded names, and the error if a write raised. -/
def priorityGo (cfg : ClassSpec) :
    List String → Sys → Dict → Sys × Dict × List String × Option PyError
  | [], st, kwargs => (st, kwargs, [], none)
  | k :: rest, st, kwargs =>
    match apop kwargs k with
    | none => priorityGo cfg rest st kwargs
    | some (v, kwargs') =>
      match objSetAttr cfg st k v with
      | (st', some e) => (st', kwargs', [], some e)
      | (st', none) =>
        match priorityGo cfg rest st' kwargs' with
        | (st'', kw'', prio, err) => (st'', kw'', k :: prio, err)

/-- The guard `if self._priority_kwargs_ is not None` around the loop. -/
def priorityPass (cfg : ClassSpec) (st : Sys) (kwargs : Dict) :
    Sys × Dict × List String × Option PyError :=
  match cfg.priority with
  | none => (st, kwargs, [], none)
  | some ps => priorityGo cfg ps st kwargs

/-- The required-field loop of `auto_init`: for each name in
`kwargs_no_default`, pop it into `init_kwargs`; on `KeyError`, record it
in `required_keys` unless it was consumed as a priority keyword.  Returns
`(init_kwargs part, required_keys, remaining kwargs)`. -/
def bindRequired : List String → List String → Dict →
    Dict × List String × Dict
  | [], _, kwargs => ([], [], kwargs)
  | n :: rest, prio, kwargs =>
    match apop kwargs n with
    | some (v, kwargs') =>
      match bindRequired rest prio kwargs' with
      | (ik, rq, kw) => ((n, v) :: ik, rq, kw)
    | none =>
      match bindRequired rest prio kwargs with
      | (ik, rq, kw) => (ik, (if prio.contains n then rq else n :: rq), kw)

/-- The defaulted-field comprehension of `auto_init`:
`{name: kwargs.pop(name, value) for name, value in kwargs_with_default}`.
Returns the comprehension result and the remaining kwargs. -/
def bindDefaults : Dict → Dict → Dict × Dict
  | [], kwargs => ([], kwargs)
  | (n, dflt) :: rest, kwargs =>
    match apop kwargs n with
    | some (v, kwargs') =>
      match bindDefaults rest kwargs' with
      | (ik, kw) => ((n, v) :: ik, kw)
    | none =>
      match bindDefaults rest kwargs with
      | (ik, kw) => ((n, dflt) :: ik, kw)

/-- `super_init(self, **kwargs)`: the delegation event is recorded, then
the ancestor constructor either raises or performs its own plain attribute
writes on the instance. -/
def superCall (cfg : ClassSpec) (st : Sys) (kwargs : Dict) :
    Sys × Option PyError :=
  let st' : Sys := { st with trace := st.trace ++ [Event.superInit kwargs] }
  match cfg.superBehavior kwargs with
  | Except.error e => (st', some e)
  | Except.ok ws =>
    ({ st' with dict := ws.foldl (fun d p => aset d p.1 p.2) st'.dict }, none)

/-- The final write loop of `auto_init`:
`for key, value in init_kwargs.items(): setattr(self, key, value)`. -/
def writeAll (cfg : ClassSpec) : Sys → Dict → Sys × Option PyError
  | st, [] => (st, none)
  | st, (k, v) :: rest =>
    match objSetAttr cfg st k v with
    | (st', some e) => (st', some e)
    | (st', none) => writeAll cfg st' rest

/-- `hasattr(self, name)` for the three post-construction hook names.
`ZnInit` itself defines `_post_init_`, so that lookup always succeeds on
any instance of a subclass. -/
def hasPostInitHook (cfg : ClassSpec) (name : String) : Bool :=
  if name = "__post_init__" then cfg.definesDunderPostInit
  else if name = "_post_init_" then true
  else if name = "post_init" then cfg.definesPlainPostInit
  else false

/-- The hook loop of `auto_init`:
`for post_init in ["__post_init__", "_post_init_", "post_init"]:` invoke
each that `hasattr` finds (there is no break).  Hook bodies are opaque;
their invocation is recorded in the trace. -/
def runHooks (cfg : ClassSpec) (st : Sys) : Sys × Option PyError :=
  let st1 := if hasPostInitHook cfg "__post_init__" then
    { st with trace := st.trace ++ [Event.hook "__post_init__"] } else st
  let st2 := if hasPostInitHook cfg "_post_init_" then
    { st1 with trace := st1.trace ++ [Event.hook "_post_init_"] } else st1
  let st3 := if hasPostInitHook cfg "post_init" then
    { st2 with trace := st2.trace ++ [Event.hook "post_init"] } else st2
  (st3, none)

/-- The synthesized constructor `auto_init(self, *args, **kwargs)` built by
`get_auto_init`, phase by phase in source order: priority pass, rejection
of positional arguments when `allow_args` is false, `_handle_args`,
required binding, defaulted binding, `init_kwargs.update`, delegation to
`super_init`, the deferred missing-required raise, the field writes, and
the hook loop.  The reached instance state is returned together with the
raised error, if any. -/
def auto_init (cfg : ClassSpec) (st : Sys) (args : List PyVal)
    (kwargs : Dict) : Sys × Option PyError :=
  match priorityPass cfg st kwargs with
  | (st1, _, _, some e) => (st1, some e)
  | (st1, kwargs1, prio, none) =>
    if args.length ≠ 0 && !cfg.allowArgs then
      (st1, some (get_args_type_error args.length cfg.clsName cfg.usesAutoInit))
    else
      match handle_args args kwargs1
          (cfg.kwargsNoDefault ++ cfg.kwargsWithDefault.map Prod.fst)
          cfg.clsName with
      | Except.error e => (st1, some e)
      | Except.ok kwargs2 =>
        match bindRequired cfg.kwargsNoDefault prio kwargs2 with
        | (initKw1, requiredKeys, kwargs3) =>
          match bindDefaults cfg.kwargsWithDefault kwargs3 with
          | (initKw2, kwargs4) =>
            let initKw := aupdate initKw1 initKw2
            match superCall cfg st1 kwargs4 with
            | (st2, some e) => (st2, some e)
            | (st2, none) =>
              if requiredKeys.isEmpty then
                match writeAll cfg st2 initKw with
                | (st3, some e) => (st3, some e)
                | (st3, none) => runHooks cfg st3
              else
                (st2, some (get_init_type_error requiredKeys cfg.clsName
                  cfg.usesAutoInit))

/-- A class as seen by the `__init_subclass__` walk over `cls.__mro__`:
its name, whether its own `__dict__` defines `__init__`, and whether that
`__init__` carries the `uses_auto_init` marker set by `get_auto_init`. -/
structure PyCls : Type where
  name : String
  definesInit : Bool
  initIsAuto : Bool
deriving DecidableEq

/-- The decision in `ZnInit.__init_subclass__`: walk `cls.__mro__` (whose
head is the new class itself); stop with synthesis when the configured
`_init_subclass_basecls_` is reached (or the walk ends); skip synthesis
when a class on the way defines an `__init__` that is not itself a
previously synthesized one. -/
def installsAutoInit : List PyCls → String → Bool
  | [], _ => true
  | c :: rest, basecls =>
    if c.name = basecls then true
    else if c.definesInit && !c.initIsAuto then false
    else installsAutoInit rest basecls

/-- Modelled from the claim's words (refinement comparison only): examine
only the ancestors *strictly between* the new type (the head of the mro)
and the boundary, exclusive of both; install the synthesized constructor
iff none of them defines a constructor that is not itself synthesized. -/
def installsAutoInitPerClaim (mro : List PyCls) (basecls : String) : Bool :=
  ((mro.drop 1).takeWhile (fun c => c.name ≠ basecls)).all
    (fun c => !c.definesInit || c.initIsAuto)

/-- One field of `ZnInit.__repr__`: `descriptor.get_repr(getattr(self,
descriptor.name))` under `try/except AttributeError`, which renders the
fixed placeholder `<AttributeError>`.  Other exceptions propagate. -/
def reprField (d : Descriptor) (instClsName : String) (dict : Dict) :
    Except PyError String :=
  match (d.getOn instClsName dict).bind d.get_repr with
  | Except.ok s => Except.ok s
  | Except.error (PyError.attributeError _) => Except.ok "<AttributeError>"
  | Except.error e => Except.error e

/-- The field loop of `ZnInit.__repr__` over the discovered descriptors,
skipping those with `use_repr` false and collecting `f"{name}={repr}"`. -/
def reprFields (instClsName : String) (dict : Dict) :
    List Descriptor → Except PyError (List String)
  | [] => Except.ok []
  | d :: rest =>
    if d.use_repr then
      match reprField d instClsName dict with
      | Except.error e => Except.error e
      | Except.ok s =>
        match reprFields instClsName dict rest with
        | Except.error e => Except.error e
        | Except.ok ss => Except.ok ((d.name ++ "=" ++ s) :: ss)
    else reprFields instClsName dict rest

/-- `ZnInit.__repr__` with `_use_repr_` true:
`f"{cls}(" + ", ".join(fields) + ")"`. -/
def znRepr (instClsName : String) (descs : List Descriptor) (dict : Dict) :
    Except PyError String :=
  match reprFields instClsName dict descs with
  | Except.error e => Except.error e
  | Except.ok fields =>
    Except.ok (instClsName ++ "(" ++ String.intercalate ", " fields ++ ")")

/-! ## Association-list lemmas shared by the claim proofs -/

theorem alookup_aset (l : Dict) (k m : String) (v : PyVal) :
    alookup (aset l k v) m = if k = m then some v else alookup l m := by
  induction l with
  | nil => by_cases hm : k = m <;> simp [aset, alookup, hm]
  | cons p rest ih =>
    obtain ⟨pk, pv⟩ := p
    by_cases hp : pk = k
    · subst hp
      by_cases hm : pk = m <;> simp [aset, alookup, hm]
    · by_cases hm : pk = m
      · subst hm
        have hkm : ¬k = pk := fun h => hp h.symm
        simp [aset, alookup, hp, hkm]
      · simp [aset, alookup, hp, hm, ih]

theorem alookup_eq_none_iff (l : Dict) (k : String) :
    alookup l k = none ↔ ∀ p ∈ l, p.1 ≠ k := by
  induction l with
  | nil => simp [alookup]
  | cons p rest ih =>
    by_cases hp : p.1 = k
    · simp [alookup, hp]
    · simp [alookup, hp, ih]

theorem apop_eq_none_iff (l : Dict) (k : String) :
    apop l k = none ↔ alookup l k = none := by
  induction l with
  | nil => simp [apop, alookup]
  | cons p rest ih =>
    by_cases hp : p.1 = k
    · simp [apop, alookup, hp]
    · simp only [apop, alookup, if_neg hp]
      rw [← ih]
      cases apop rest k <;> simp

theorem apop_some_lookup (l l' : Dict) (k : String) (v : PyVal)
    (h : apop l k = some (v, l')) : alookup l k = some v := by
  induction l generalizing l' with
  | nil => simp [apop] at h
  | cons p rest ih =>
    by_cases hp : p.1 = k
    · simp only [apop, if_pos hp] at h
      simp only [alookup, if_pos hp]
      cases h
      rfl
    · simp only [apop, if_neg hp] at h
      simp only [alookup, if_neg hp]
      cases hrest : apop rest k with
      | none => rw [hrest] at h; simp at h
      | some pr =>
        rw [hrest] at h
        simp only [Option.map_some'] at h
        cases h
        exact ih pr.2 (by rw [hrest])

theorem apop_some_filter (l l' : Dict) (k : String) (v : PyVal)
    (hn : (l.map Prod.fst).Nodup) (h : apop l k = some (v, l')) :
    l' = l.filter fun p => p.1 != k := by
  induction l generalizing l' with
  | nil => simp [apop] at h
  | cons p rest ih =>
    simp only [List.map_cons, List.nodup_cons] at hn
    by_cases hp : p.1 = k
    · simp only [apop, if_pos hp] at h
      cases h
      have hall : ∀ q ∈ rest, (q.1 != k) = true := by
        intro q hq
        have hqk : q.1 ≠ k := by
          intro hqk
          exact hn.1 (List.mem_map.mpr ⟨q, hq, hqk.trans hp.symm⟩)
        simpa using hqk
      have hpk : (p.1 != k) = false := by simp [hp]
      simp only [List.filter_cons, hpk, Bool.false_eq_true, if_false]
      exact (List.filter_eq_self.mpr hall).symm
    · simp only [apop, if_neg hp] at h
      cases hrest : apop rest k with
      | none => rw [hrest] at h; simp at h
      | some pr =>
        obtain ⟨w, rest'⟩ := pr
        rw [hrest] at h
        simp only [Option.map_some'] at h
        cases h
        have hpk : (p.1 != k) = true := by simpa using hp
        simp only [List.filter_cons, hpk, if_pos rfl]
        rw [ih rest' hn.2 hrest]
        simp

theorem alookup_filter_ne (l : Dict) (k m : String) :
    alookup (l.filter fun p => p.1 != k) m =
      if m = k then none else alookup l m := by
  induction l with
  | nil => by_cases hm : m = k <;> simp [alookup, hm]
  | cons p rest ih =>
    obtain ⟨pk, pv⟩ := p
    by_cases hpk : pk = k
    · subst hpk
      simp only [List.filter_cons, show (((pk, pv).1 != pk) = false) by simp,
        Bool.false_eq_true, if_false]
      rw [ih]
      by_cases hm : m = pk
      · simp [hm]
      · have hpm : ¬pk = m := fun h => hm h.symm
        simp [alookup, hm, hpm]
    · simp only [List.filter_cons,
        show (((pk, pv).1 != k) = true) by simpa using hpk, if_pos rfl]
      by_cases hpm : pk = m
      · subst hpm
        have hmk : ¬pk = k := hpk
        simp [alookup, hmk]
      · simp [alookup, hpm, ih]

theorem filter_keys_nodup (l : Dict) (f : String × PyVal → Bool)
    (hn : (l.map Prod.fst).Nodup) : ((l.filter f).map Prod.fst).Nodup :=
  List.Nodup.sublist (List.Sublist.map Prod.fst (List.filter_sublist l)) hn

theorem aset_of_lookup_none (l : Dict) (k : String) (v : PyVal)
    (h : alookup l k = none) : aset l k v = l ++ [(k, v)] := by
  induction l with
  | nil => simp [aset]
  | cons p rest ih =>
    simp only [alookup] at h
    by_cases hp : p.1 = k
    · simp [hp] at h
    · simp only [aset, if_neg hp, List.cons_append]
      rw [ih (by simpa [hp] using h)]

/-! ## C5: frozen fields accept exactly one write per instance -/

/-- C5: for a frozen attribute, the first write on a fresh instance
succeeds and records the instance in the frozen table; the second write on
the same instance fails with the frozen-field error for every new value
(including the value already stored); and a first write on a distinct
instance of the same type still succeeds independently. -/
theorem c5_frozen_write_once (d : Descriptor) (id1 id2 : Nat)
    (dict1 dict2 : Dict) (v w u : PyVal)
    (hf : d.frozen = true) (hon : d.on_setattr = none)
    (hct : d.check_types = false) (hne : id1 ≠ id2) :
    Descriptor.setOn d [] id1 dict1 v = ([id1], aset dict1 d.name v, none) ∧
    (Descriptor.setOn d [id1] id1 (aset dict1 d.name v) w).2.2 =
      some (PyError.typeError
        ("Frozen attribute '" ++ d.name ++ "' can not be changed.")) ∧
    Descriptor.setOn d [id1] id2 dict2 u =
      ([id2, id1], aset dict2 d.name u, none) := by
  refine ⟨?_, ?_, ?_⟩
  · simp [Descriptor.setOn, Descriptor.onSetRes, hon, hct, hf]
  · simp [Descriptor.setOn]
  · have hne' : ¬id2 = id1 := fun h => hne h.symm
    simp [Descriptor.setOn, Descriptor.onSetRes, hon, hct, hf, hne']

/-- C5 witness: concrete frozen descriptor, two instances 0 and 1. -/
theorem c5_frozen_write_once_witness :
    Descriptor.setOn { name := "x", frozen := true } [] 0 []
      (PyVal.pyInt 1) = ([0], aset [] "x" (PyVal.pyInt 1), none) ∧
    (Descriptor.setOn { name := "x", frozen := true } [0] 0
      (aset [] "x" (PyVal.pyInt 1)) (PyVal.pyInt 1)).2.2 =
      some (PyError.typeError "Frozen attribute 'x' can not be changed.") ∧
    Descriptor.setOn { name := "x", frozen := true } [0] 1 []
      (PyVal.pyInt 2) = ([1, 0], aset [] "x" (PyVal.pyInt 2), none) :=
  c5_frozen_write_once { name := "x", frozen := true } 0 1 [] []
    (PyVal.pyInt 1) (PyVal.pyInt 1) (PyVal.pyInt 2) rfl rfl rfl
    (by decide)

/-! ## C10: a failed write leaves stored value and frozen state unchanged -/

/-- C10: whenever `Descriptor.__set__` raises — frozen field, a raising
`on_setattr` transform, or a type-check rejection — the instance's stored
value and the per-instance frozen table are unchanged, and a subsequent
write whose transform and type check succeed still goes through (the
failed write did not consume the single permitted write of a frozen
field). -/
theorem c10_failed_write_leaves_state (d : Descriptor) (tab : List Nat)
    (id : Nat) (dict : Dict) (v : PyVal) (e : PyError)
    (herr : (Descriptor.setOn d tab id dict v).2.2 = some e) :
    (Descriptor.setOn d tab id dict v).1 = tab ∧
    (Descriptor.setOn d tab id dict v).2.1 = dict ∧
    ∀ v' w, tab.contains id = false → d.onSetRes v' = Except.ok w →
      (d.check_types && !(d.annotation w)) = false →
      Descriptor.setOn d tab id dict v' =
        ((if d.frozen then id :: tab else tab), aset dict d.name w, none) := by
  have hthird : tab.contains id = false →
      ∀ v' w, d.onSetRes v' = Except.ok w →
        (d.check_types && !(d.annotation w)) = false →
        Descriptor.setOn d tab id dict v' =
          ((if d.frozen then id :: tab else tab), aset dict d.name w,
            none) := by
    intro hc v' w h2 h3
    have hm : id ∉ tab := by simpa using hc
    simp [Descriptor.setOn, hm, h2, h3]
  by_cases hc : tab.contains id
  · have hm : id ∈ tab := by simpa using hc
    refine ⟨by simp [Descriptor.setOn, hm], by simp [Descriptor.setOn, hm],
      ?_⟩
    intro v' w h1 h2 h3
    rw [h1] at hc
    exact absurd hc (by simp)
  · have hc' : tab.contains id = false := by simpa using hc
    have hm : id ∉ tab := by simpa using hc'
    cases hos : d.onSetRes v with
    | error e' =>
      exact ⟨by simp [Descriptor.setOn, hm, hos],
        by simp [Descriptor.setOn, hm, hos],
        fun v' w _ h2 h3 => hthird hc' v' w h2 h3⟩
    | ok v'' =>
      by_cases hchk : (d.check_types && !(d.annotation v'')) = true
      · exact ⟨by simp [Descriptor.setOn, hm, hos, hchk],
          by simp [Descriptor.setOn, hm, hos, hchk],
          fun v' w _ h2 h3 => hthird hc' v' w h2 h3⟩
      · exfalso
        have hnone : (Descriptor.setOn d tab id dict v).2.2 = none := by
          simp only [Bool.not_eq_true] at hchk
          simp [Descriptor.setOn, hm, hos, hchk]
        rw [hnone] at herr
        exact Option.noConfusion herr

/-- C10 witness: a frozen field already written once (instance 0 in the
table) rejects a new write leaving state unchanged, and the same state
still accepts a first write on instance 1. -/
theorem c10_failed_write_leaves_state_witness :
    (Descriptor.setOn { name := "x", frozen := true } [0] 0 []
      (PyVal.pyInt 2)).2.2 =
      some (PyError.typeError "Frozen attribute 'x' can not be changed.") ∧
    (Descriptor.setOn { name := "x", frozen := true } [0] 0 []
      (PyVal.pyInt 2)).1 = [0] ∧
    (Descriptor.setOn { name := "x", frozen := true } [0] 0 []
      (PyVal.pyInt 2)).2.1 = [] := by
  have h := c10_failed_write_leaves_state { name := "x", frozen := true }
    [0] 0 [] (PyVal.pyInt 2)
    (PyError.typeError "Frozen attribute 'x' can not be changed.") rfl
  exact ⟨rfl, h.1, h.2.1⟩

/-! ## C8: rejection of positional arguments and its exact message -/

/-- C8: when the type's configuration forbids positional arguments
(`allow_args=False`, with no priority list configured, as in the source's
default) and at least one positional argument is supplied, the synthesized
constructor fails with the argument-count `TypeError` whose message is
exactly `"<Type>.__init__() takes 1 positional argument but <n+1> were
given"` when the type's own constructor is the synthesized one, and
exactly `"super(<Type>, self).__init__() takes 1 positional argument but
<n+1> were given"` when the type delegates from its own constructor. -/
theorem c8_positional_rejection (cfg : ClassSpec) (st : Sys)
    (args : List PyVal) (kwargs : Dict)
    (hp : cfg.priority = none) (ha : cfg.allowArgs = false)
    (hn : args ≠ []) :
    (auto_init cfg st args kwargs).2 = some (PyError.typeError
      (if cfg.usesAutoInit then
        cfg.clsName ++ ".__init__() takes 1 positional argument but " ++
          toString (args.length + 1) ++ " were given"
      else
        "super(" ++ cfg.clsName ++
          ", self).__init__() takes 1 positional argument but " ++
          toString (args.length + 1) ++ " were given")) := by
  have hlen : args.length ≠ 0 := by simpa using hn
  simp only [auto_init, priorityPass, hp, ha, get_args_type_error]
  cases hu : cfg.usesAutoInit <;> simp [hu, hlen]

/-- C8 witness: one positional argument against a kwargs-only class, in
both the synthesized and the delegated configuration. -/
theorem c8_positional_rejection_witness :
    (auto_init { clsName := "T", allowArgs := false } {}
      [PyVal.pyInt 10] []).2 = some (PyError.typeError
        "T.__init__() takes 1 positional argument but 2 were given") ∧
    (auto_init { clsName := "T", allowArgs := false, usesAutoInit := false }
      {} [PyVal.pyInt 10] []).2 = some (PyError.typeError
        "super(T, self).__init__() takes 1 positional argument but 2 were given") := by
  constructor
  · have h := c8_positional_rejection
      { clsName := "T", allowArgs := false } {} [PyVal.pyInt 10] []
      rfl rfl (by decide)
    simpa using h
  · have h := c8_positional_rejection
      { clsName := "T", allowArgs := false, usesAutoInit := false } {}
      [PyVal.pyInt 10] [] rfl rfl (by decide)
    simpa using h

/-! ## C4: the representation converts read failures into a placeholder -/

/-- Shape lemma: the only failure `Descriptor.__get__` can produce is the
`AttributeError` for an unset field. -/
theorem getOn_error_shape (d : Descriptor) (cn : String) (dict : Dict)
    (e : PyError) (h : d.getOn cn dict = Except.error e) :
    e = PyError.attributeError ("'" ++ cn ++ "." ++ d.name ++ "' is not set") := by
  unfold Descriptor.getOn at h
  by_cases hv : ((alookup dict d.name).getD d.default) = PyVal.empty
  · simp only [hv, if_pos] at h
    cases h
    rfl
  · simp [hv] at h

/-- The field loop of `__repr__` never fails when every configured
`repr_func` is total. -/
theorem reprFields_total (cn : String) (dict : Dict)
    (descs : List Descriptor)
    (hrepr : ∀ d ∈ descs, ∀ v, ∃ s, d.get_repr v = Except.ok s) :
    ∃ ss, reprFields cn dict descs = Except.ok ss := by
  induction descs with
  | nil => exact ⟨[], rfl⟩
  | cons d rest ih =>
    obtain ⟨ss, hss⟩ := ih fun d' hd' => hrepr d' (List.mem_cons_of_mem _ hd')
    by_cases hu : d.use_repr
    · have hfield : ∃ s, reprField d cn dict = Except.ok s := by
        unfold reprField
        cases hg : d.getOn cn dict with
        | error e =>
          rw [getOn_error_shape d cn dict e hg]
          exact ⟨"<AttributeError>", rfl⟩
        | ok v =>
          obtain ⟨s, hs⟩ := hrepr d (List.mem_cons_self d rest) v
          rw [show (Except.ok v : Except PyError PyVal).bind d.get_repr =
            d.get_repr v from rfl, hs]
          exact ⟨s, rfl⟩
      obtain ⟨s, hs⟩ := hfield
      refine ⟨(d.name ++ "=" ++ s) :: ss, ?_⟩
      unfold reprFields
      rw [if_pos hu, hs, hss]
    · refine ⟨ss, ?_⟩
      unfold reprFields
      rw [if_neg hu]
      exact hss

/-- C4 (amended): reading a managed attribute can only fail with an
`AttributeError`, which `__repr__` converts into the fixed placeholder
`<AttributeError>`; hence, whenever every configured `repr_func` is total,
the representation never raises. -/
theorem c4_repr_never_raises (cn : String) (descs : List Descriptor)
    (dict : Dict)
    (hrepr : ∀ d ∈ descs, ∀ v, ∃ s, d.get_repr v = Except.ok s) :
    ∃ s, znRepr cn descs dict = Except.ok s := by
  obtain ⟨ss, hss⟩ := reprFields_total cn dict descs hrepr
  exact ⟨_, by unfold znRepr; rw [hss]⟩

/-- C4 counterexample: a field whose read fails is rendered with the
placeholder `<AttributeError>`, not with the placeholder `<error>` stated
by the claim. -/
theorem c4_counterexample :
    znRepr "Cls" [{ name := "x" }] [] =
      Except.ok "Cls(x=<AttributeError>)" ∧
    znRepr "Cls" [{ name := "x" }] [] ≠
      Except.ok "Cls(x=<error>)" := by
  refine ⟨rfl, ?_⟩
  intro h
  rw [show znRepr "Cls" [{ name := "x" }] [] =
    Except.ok "Cls(x=<AttributeError>)" from rfl] at h
  injection h with h
  exact absurd h (by decide)

/-- C4 witness: a one-field class whose only field is unset renders
totally, through the theorem. -/
theorem c4_repr_never_raises_witness :
    ∃ s, znRepr "Cls" [{ name := "y" }] [] = Except.ok s :=
  c4_repr_never_raises "Cls" [{ name := "y" }] []
    (by
      intro d hd v
      simp only [List.mem_singleton] at hd
      subst hd
      exact ⟨pyRepr v, rfl⟩)

/-! ## C6: reading a managed attribute -/

/-- C6 (amended): class-level access returns the descriptor itself; a
stored non-sentinel value is returned as stored; with nothing stored, a
non-sentinel default is returned; and when the resolved value is the
`Empty` sentinel the read fails with an `AttributeError` naming the
*instance's* class and the field — so the sentinel is never observable as
a returned value. -/
theorem c6_read_semantics (d : Descriptor) (cn : String) (dict : Dict) :
    Descriptor.get d none = Except.ok GetResult.descrip ∧
    (∀ v, alookup dict d.name = some v → v ≠ PyVal.empty →
      Descriptor.get d (some (cn, dict)) = Except.ok (GetResult.value v)) ∧
    (alookup dict d.name = none → d.default ≠ PyVal.empty →
      Descriptor.get d (some (cn, dict)) =
        Except.ok (GetResult.value d.default)) ∧
    ((alookup dict d.name).getD d.default = PyVal.empty →
      Descriptor.get d (some (cn, dict)) = Except.error
        (PyError.attributeError
          ("'" ++ cn ++ "." ++ d.name ++ "' is not set"))) := by
  refine ⟨rfl, ?_, ?_, ?_⟩
  · intro v hv hne
    simp [Descriptor.get, Descriptor.getOn, hv, hne, Except.map]
  · intro hv hne
    simp [Descriptor.get, Descriptor.getOn, hv, hne, Except.map]
  · intro hv
    simp [Descriptor.get, Descriptor.getOn, hv, Except.map]

/-- C6 witness: a stored value is returned, and an unset required field
raises the not-set error. -/
theorem c6_read_semantics_witness :
    Descriptor.get { name := "x" } (some ("B", [("x", PyVal.pyInt 3)])) =
      Except.ok (GetResult.value (PyVal.pyInt 3)) ∧
    Descriptor.get { name := "x" } (some ("B", [])) =
      Except.error (PyError.attributeError "'B.x' is not set") := by
  constructor
  · exact (c6_read_semantics { name := "x" } "B"
      [("x", PyVal.pyInt 3)]).2.1 (PyVal.pyInt 3) rfl (by decide)
  · have h := (c6_read_semantics { name := "x" } "B" []).2.2.2 rfl
    simpa using h

/-- C6 counterexample: the not-set error message is built from the
instance's class name, not from the owning (declaring) type recorded in
the descriptor — for a descriptor owned by `A` read through an instance
of subclass `B`, the message names `B`, not `A` as the claim states. -/
theorem c6_counterexample :
    Descriptor.get { name := "x", owner := some "A" } (some ("B", [])) =
      Except.error (PyError.attributeError "'B.x' is not set") ∧
    ({ name := "x", owner := some "A" } : Descriptor).owner = some "A" ∧
    "'B.x' is not set" ≠ "'A.x' is not set" := by
  refine ⟨rfl, rfl, by decide⟩

/-! ## C3: when `__init_subclass__` installs the synthesized constructor -/

/-- C3 (amended): the synthesized constructor is installed iff no class
from the new type itself (the head of the mro, inclusive) up to the
configured boundary (exclusive) defines an `__init__` that is not itself a
previously synthesized one. -/
theorem c3_install_iff (mro : List PyCls) (basecls : String) :
    installsAutoInit mro basecls = true ↔
      ∀ c ∈ mro.takeWhile (fun c => c.name != basecls),
        c.definesInit = true → c.initIsAuto = true := by
  induction mro with
  | nil => simp [installsAutoInit]
  | cons c rest ih =>
    by_cases hb : c.name = basecls
    · simp [installsAutoInit, hb, List.takeWhile_cons]
    · have hbb : (c.name != basecls) = true := by simpa using hb
      by_cases hd : (c.definesInit && !c.initIsAuto) = true
      · obtain ⟨hdef, hnauto⟩ := Bool.and_eq_true_iff.mp hd
        have hauto : c.initIsAuto = false := by simpa using hnauto
        constructor
        · intro h
          exfalso
          rw [installsAutoInit, if_neg hb, hd] at h
          simp at h
        · intro h
          exfalso
          have := h c (by
            rw [List.takeWhile_cons, hbb]
            exact List.mem_cons_self _ _) hdef
          rw [this] at hauto
          exact Bool.noConfusion hauto
      · have hpass : c.definesInit = true → c.initIsAuto = true := by
          intro hdef
          by_contra hna
          exact hd (Bool.and_eq_true_iff.mpr
            ⟨hdef, by simpa using hna⟩)
        rw [installsAutoInit, if_neg hb, if_neg hd]
        rw [List.takeWhile_cons, hbb]
        constructor
        · intro h x hx
          rcases List.mem_cons.mp (by simpa using hx) with hx1 | hx2
          · subst hx1; exact hpass
          · exact (ih.mp h) x hx2
        · intro h
          refine ih.mpr fun x hx => h x ?_
          simpa using Or.inr hx

/-- C3 counterexample: a subtype that itself defines a hand-written
(non-synthesized) constructor, with nothing strictly between it and the
boundary, receives no synthesized constructor — although the claim's
strictly-between reading says it must receive one. -/
theorem c3_counterexample :
    installsAutoInit
      [{ name := "Child", definesInit := true, initIsAuto := false },
       { name := "ZnInit", definesInit := true, initIsAuto := false }]
      "ZnInit" = false ∧
    installsAutoInitPerClaim
      [{ name := "Child", definesInit := true, initIsAuto := false },
       { name := "ZnInit", definesInit := true, initIsAuto := false }]
      "ZnInit" = true := by
  refine ⟨rfl, rfl⟩

/-! ## C2: the post-construction hook loop -/

/-- The hook names appearing in a trace, in invocation order. -/
def hookEvents (t : List Event) : List String :=
  t.filterMap fun e => match e with
    | Event.hook h => some h
    | _ => none

theorem hookEvents_append (a b : List Event) :
    hookEvents (a ++ b) = hookEvents a ++ hookEvents b :=
  List.filterMap_append a b _

theorem hookEvents_write (k : String) (v : PyVal) :
    hookEvents [Event.write k v] = [] := rfl

theorem hookEvents_superInit (kw : Dict) :
    hookEvents [Event.superInit kw] = [] := rfl

theorem hookEvents_hook (h : String) :
    hookEvents [Event.hook h] = [h] := rfl

theorem hookEvents_nil : hookEvents [] = [] := rfl

theorem hookEvents_hook_cons (h : String) (t : List Event) :
    hookEvents (Event.hook h :: t) = h :: hookEvents t := rfl

/-- `setattr` appends no hook event. -/
theorem hookEvents_objSetAttr (cfg : ClassSpec) (st : Sys) (k : String)
    (v : PyVal) :
    hookEvents ((objSetAttr cfg st k v).1).trace = hookEvents st.trace := by
  unfold objSetAttr
  cases hf : cfg.descs.find? (fun d => d.name = k) with
  | none => simp [hookEvents_append, hookEvents_write]
  | some d =>
    by_cases hfr : st.frozen.contains k
    · have hm : k ∈ st.frozen := by simpa using hfr
      simp [hm]
    · have hm : ¬k ∈ st.frozen := by simpa using hfr
      simp only [hm, if_neg, if_false]
      cases hos : d.onSetRes v with
      | error e => simp [hm]
      | ok v' =>
        by_cases hchk : (d.check_types && !(d.annotation v')) = true
        · simp [hm, hchk]
        · simp only [Bool.not_eq_true] at hchk
          simp [hm, hchk, hookEvents_append, hookEvents_write]

/-- The priority pass appends no hook event, whatever its outcome. -/
theorem hookEvents_priorityGo (cfg : ClassSpec) (ps : List String) :
    ∀ (st : Sys) (kwargs : Dict),
    hookEvents ((priorityGo cfg ps st kwargs).1).trace =
      hookEvents st.trace := by
  induction ps with
  | nil => intro st kwargs; rfl
  | cons k rest ih =>
    intro st kwargs
    unfold priorityGo
    cases hpop : apop kwargs k with
    | none => exact ih st kwargs
    | some p =>
      obtain ⟨v, kw'⟩ := p
      dsimp only
      have hset := hookEvents_objSetAttr cfg st k v
      cases hobj : objSetAttr cfg st k v with
      | mk st' err =>
        rw [hobj] at hset
        cases err with
        | some e =>
          dsimp only
          exact hset
        | none =>
          dsimp only at hset ⊢
          have hrec := ih st' kw'
          cases hpr : priorityGo cfg rest st' kw' with
          | mk st'' r =>
            rw [hpr] at hrec
            dsimp only at hrec ⊢
            rw [hrec, hset]

/-- The whole priority phase appends no hook event. -/
theorem hookEvents_priorityPass (cfg : ClassSpec) (st : Sys)
    (kwargs : Dict) :
    hookEvents ((priorityPass cfg st kwargs).1).trace =
      hookEvents st.trace := by
  unfold priorityPass
  cases cfg.priority with
  | none => rfl
  | some ps => exact hookEvents_priorityGo cfg ps st kwargs

/-- Delegation appends no hook event. -/
theorem hookEvents_superCall (cfg : ClassSpec) (st : Sys) (kw : Dict) :
    hookEvents ((superCall cfg st kw).1).trace = hookEvents st.trace := by
  unfold superCall
  cases cfg.superBehavior kw <;>
    simp [hookEvents_append, hookEvents_superInit]

/-- The field-write loop appends no hook event. -/
theorem hookEvents_writeAll (cfg : ClassSpec) :
    ∀ (pairs : Dict) (st : Sys),
    hookEvents ((writeAll cfg st pairs).1).trace = hookEvents st.trace := by
  intro pairs
  induction pairs with
  | nil => intro st; rfl
  | cons p rest ih =>
    intro st
    obtain ⟨k, v⟩ := p
    unfold writeAll
    have hset := hookEvents_objSetAttr cfg st k v
    cases hobj : objSetAttr cfg st k v with
    | mk st' err =>
      rw [hobj] at hset
      cases err with
      | some e =>
        dsimp only
        exact hset
      | none =>
        dsimp only at hset ⊢
        rw [ih st', hset]

/-- C2 (amended): in every successful run of the synthesized constructor,
the hook loop tries the dunder-style, the underscore-wrapped, and the
plain-named hook in that fixed order and invokes *every* one the instance
defines, not only the first found; because the base class itself defines
the underscore-wrapped hook, that hook is always among those invoked.
Absence of the two optional hooks is not an error. -/
theorem c2_every_defined_hook_runs (cfg : ClassSpec) (st : Sys)
    (args : List PyVal) (kwargs : Dict)
    (hs : (auto_init cfg st args kwargs).2 = none)
    (h0 : hookEvents st.trace = []) :
    hookEvents (auto_init cfg st args kwargs).1.trace =
      (if cfg.definesDunderPostInit then ["__post_init__"] else []) ++
        ["_post_init_"] ++
        (if cfg.definesPlainPostInit then ["post_init"] else []) := by
  have hpre := hookEvents_priorityPass cfg st kwargs
  unfold auto_init at hs ⊢
  rcases hpp : priorityPass cfg st kwargs with ⟨st1, kw1, prio, err1⟩
  rw [hpp] at hpre hs
  dsimp only at hpre
  have hst1 : hookEvents st1.trace = [] := by rw [hpre, h0]
  cases err1 with
  | some e =>
    dsimp only at hs
    exact Option.noConfusion hs
  | none =>
    dsimp only at hs ⊢
    by_cases hargs : (decide (args.length ≠ 0) && !cfg.allowArgs) = true
    · rw [if_pos hargs] at hs
      exact Option.noConfusion hs
    · rw [if_neg hargs] at hs ⊢
      cases hha : handle_args args kw1
          (cfg.kwargsNoDefault ++ cfg.kwargsWithDefault.map Prod.fst)
          cfg.clsName with
      | error e =>
        try rw [hha] at hs
        dsimp only at hs
        exact Option.noConfusion hs
      | ok kw2 =>
        try rw [hha] at hs
        try rw [hha]
        dsimp only at hs ⊢
        rcases hbr : bindRequired cfg.kwargsNoDefault prio kw2 with
          ⟨ik1, rq, kw3⟩
        try rw [hbr] at hs
        try rw [hbr]
        dsimp only at hs ⊢
        rcases hbd : bindDefaults cfg.kwargsWithDefault kw3 with ⟨ik2, kw4⟩
        try rw [hbd] at hs
        try rw [hbd]
        dsimp only at hs ⊢
        have hsup := hookEvents_superCall cfg st1 kw4
        rcases hsc : superCall cfg st1 kw4 with ⟨st2, err2⟩
        rw [hsc] at hsup
        dsimp only at hsup
        try rw [hsc] at hs
        try rw [hsc]
        have hst2 : hookEvents st2.trace = [] := by rw [hsup, hst1]
        cases err2 with
        | some e =>
          dsimp only at hs
          exact Option.noConfusion hs
        | none =>
          dsimp only at hs ⊢
          by_cases hrq : rq.isEmpty = true
          · rw [if_pos hrq] at hs ⊢
            have hwr := hookEvents_writeAll cfg (aupdate ik1 ik2) st2
            rcases hwa : writeAll cfg st2 (aupdate ik1 ik2) with ⟨st3, err3⟩
            rw [hwa] at hwr
            dsimp only at hwr
            try rw [hwa] at hs
            try rw [hwa]
            have hst3 : hookEvents st3.trace = [] := by rw [hwr, hst2]
            cases err3 with
            | some e =>
              dsimp only at hs
              exact Option.noConfusion hs
            | none =>
              dsimp only
              unfold runHooks
              have h1 : hasPostInitHook cfg "__post_init__" =
                cfg.definesDunderPostInit := rfl
              have h2 : hasPostInitHook cfg "_post_init_" = true := rfl
              have h3 : hasPostInitHook cfg "post_init" =
                cfg.definesPlainPostInit := rfl
              rw [h1, h2, h3]
              by_cases hd : cfg.definesDunderPostInit <;>
                by_cases hp : cfg.definesPlainPostInit <;>
                  simp [hd, hp, hookEvents_append, hookEvents_hook_cons,
                    hookEvents_nil, hst3]
          · rw [if_neg hrq] at hs
            exact Option.noConfusion hs

/-- C2 counterexample: a class defining both the dunder-style and the
plain-named hook has all three hooks invoked by one construction (the
underscore-wrapped one is inherited from the base class), not only the
first found. -/
theorem c2_counterexample :
    (auto_init
      { clsName := "H",
        definesDunderPostInit := true,
        definesPlainPostInit := true } {} [] []).2 = none ∧
    hookEvents (auto_init
      { clsName := "H",
        definesDunderPostInit := true,
        definesPlainPostInit := true } {} [] []).1.trace =
      ["__post_init__", "_post_init_", "post_init"] ∧
    (["__post_init__", "_post_init_", "post_init"] : List String) ≠
      ["__post_init__"] := by
  refine ⟨rfl, rfl, by decide⟩

/-- C2 witness: a class defining only the dunder hook, constructed with no
arguments, runs the dunder hook and then the inherited underscore hook. -/
theorem c2_every_defined_hook_runs_witness :
    hookEvents (auto_init
      { clsName := "W", definesDunderPostInit := true } {} [] []).1.trace =
      ["__post_init__", "_post_init_"] := by
  have h := c2_every_defined_hook_runs
    { clsName := "W", definesDunderPostInit := true } {} [] [] rfl rfl
  simpa using h

/-! ## Characterization of the constructor phases -/

/-- A successful `setattr`: when the frozen table does not hit, the
resolved descriptor (if any) has no `on_setattr`, and its type check (if
enabled) accepts the value, the write stores the value, appends exactly
one `write` event, and touches the frozen table only at the written
key. -/
theorem objSetAttr_ok (cfg : ClassSpec) (st : Sys) (k : String) (v : PyVal)
    (hfr : st.frozen.contains k = false)
    (hok : ∀ d, cfg.descs.find? (fun d => d.name = k) = some d →
      d.on_setattr = none ∧ (d.check_types = true → d.annotation v = true)) :
    ∃ frozF, objSetAttr cfg st k v =
      ({ dict := aset st.dict k v, frozen := frozF,
         trace := st.trace ++ [Event.write k v] }, none) ∧
      ∀ m, ¬m = k → frozF.contains m = st.frozen.contains m := by
  unfold objSetAttr
  cases hfind : cfg.descs.find? (fun d => d.name = k) with
  | none => exact ⟨st.frozen, rfl, fun m _ => rfl⟩
  | some d =>
    obtain ⟨hon, hchk⟩ := hok d hfind
    have hm : ¬k ∈ st.frozen := by simpa using hfr
    have hos : d.onSetRes v = Except.ok v := by
      unfold Descriptor.onSetRes
      rw [hon]
    have hcc : (d.check_types && !(d.annotation v)) = false := by
      cases hct : d.check_types with
      | false => simp
      | true => simp [hchk hct]
    refine ⟨if d.frozen then k :: st.frozen else st.frozen, ?_, ?_⟩
    · simp only [hm, if_neg, if_false, hos, hcc]
      simp [hm]
    · intro m hmk
      cases hdf : d.frozen with
      | false => simp
      | true =>
        simp only [if_pos rfl]
        simp [List.contains_cons, hmk]

/-- The required-field binding loop, characterized against the incoming
keyword dictionary: the bound pairs are the supplied required names with
their values, the recorded missing names are the unsupplied ones not
consumed as priority keywords, and the remaining dictionary drops exactly
the required names. -/
theorem bindRequired_spec (prio : List String) :
    ∀ (names : List String) (kw : Dict), names.Nodup →
    (kw.map Prod.fst).Nodup →
    bindRequired names prio kw =
      (names.filterMap (fun n => (alookup kw n).map fun v => (n, v)),
       names.filter (fun n => (alookup kw n).isNone && !(prio.contains n)),
       kw.filter (fun p => !(names.contains p.1))) := by
  intro names
  induction names with
  | nil =>
    intro kw _ _
    simp [bindRequired]
  | cons n rest ih =>
    intro kw hn hk
    have hn' := (List.nodup_cons.mp hn).2
    have hnmem : n ∉ rest := (List.nodup_cons.mp hn).1
    cases hpop : apop kw n with
    | some p =>
      obtain ⟨v, kw'⟩ := p
      have hl := apop_some_lookup kw kw' n v hpop
      have hf := apop_some_filter kw kw' n v hk hpop
      have hk' : (kw'.map Prod.fst).Nodup := by
        rw [hf]; exact filter_keys_nodup kw _ hk
      have hlk : ∀ x ∈ rest, alookup kw' x = alookup kw x := by
        intro x hx
        rw [hf, alookup_filter_ne]
        refine if_neg fun hxe => hnmem ?_
        rw [← hxe]
        exact hx
      unfold bindRequired
      rw [hpop]
      dsimp only
      rw [ih kw' hn' hk']
      dsimp only
      simp only [Prod.mk.injEq]
      refine ⟨?_, ?_, ?_⟩
      · have h1 : rest.filterMap
            (fun x => (alookup kw' x).map fun w => (x, w)) =
            rest.filterMap (fun x => (alookup kw x).map fun w => (x, w)) :=
          List.filterMap_congr fun x hx => by rw [hlk x hx]
        rw [h1, List.filterMap_cons, hl]
        rfl
      · have h2 : rest.filter
            (fun x => (alookup kw' x).isNone && !(prio.contains x)) =
            rest.filter
              (fun x => (alookup kw x).isNone && !(prio.contains x)) :=
          List.filter_congr fun x hx => by rw [hlk x hx]
        rw [h2, List.filter_cons, hl]
        simp
      · rw [hf, List.filter_filter]
        refine List.filter_congr fun p hp => ?_
        cases h1 : (p.1 == n) <;> cases h2 : rest.contains p.1 <;>
          simp [List.contains_cons, h1, h2, bne]
        · exact ⟨by simpa using h1, by simpa using h2⟩
        · exact fun _ => by simpa using h2
        · exact fun hne => absurd (by simpa using h1) hne
        · exact fun _ => by simpa using h2
    | none =>
      have hknone : alookup kw n = none := (apop_eq_none_iff kw n).mp hpop
      have hnok : ∀ p ∈ kw, p.1 ≠ n := (alookup_eq_none_iff kw n).mp hknone
      unfold bindRequired
      rw [hpop]
      dsimp only
      rw [ih kw hn' hk]
      dsimp only
      simp only [Prod.mk.injEq]
      refine ⟨?_, ?_, ?_⟩
      · simp [List.filterMap_cons, hknone]
      · rw [List.filter_cons, hknone]
        cases hpc : prio.contains n <;> simp
      · refine List.filter_congr fun p hp => ?_
        have hb : (p.1 == n) = false := by simpa using hnok p hp
        simp only [List.contains_cons, hb, Bool.false_or]

/-- The defaulted-field comprehension, characterized against the incoming
keyword dictionary: each defaulted name binds its supplied value or its
precomputed default, and the remaining dictionary drops exactly the
defaulted names. -/
theorem bindDefaults_spec :
    ∀ (dfts : Dict) (kw : Dict), (dfts.map Prod.fst).Nodup →
    (kw.map Prod.fst).Nodup →
    bindDefaults dfts kw =
      (dfts.map (fun q => (q.1, (alookup kw q.1).getD q.2)),
       kw.filter (fun p => !((dfts.map Prod.fst).contains p.1))) := by
  intro dfts
  induction dfts with
  | nil =>
    intro kw _ _
    simp [bindDefaults]
  | cons q rest ih =>
    obtain ⟨n, dflt⟩ := q
    intro kw hn hk
    simp only [List.map_cons, List.nodup_cons] at hn
    have hn' := hn.2
    have hnmem : n ∉ rest.map Prod.fst := hn.1
    cases hpop : apop kw n with
    | some p =>
      obtain ⟨v, kw'⟩ := p
      have hl := apop_some_lookup kw kw' n v hpop
      have hf := apop_some_filter kw kw' n v hk hpop
      have hk' : (kw'.map Prod.fst).Nodup := by
        rw [hf]; exact filter_keys_nodup kw _ hk
      have hlk : ∀ x ∈ rest.map Prod.fst, alookup kw' x = alookup kw x := by
        intro x hx
        rw [hf, alookup_filter_ne]
        refine if_neg fun hxe => hnmem ?_
        rw [← hxe]
        exact hx
      unfold bindDefaults
      rw [hpop]
      dsimp only
      rw [ih kw' hn' hk']
      dsimp only
      simp only [Prod.mk.injEq]
      refine ⟨?_, ?_⟩
      · rw [List.map_cons]
        dsimp only
        rw [hl]
        simp only [Option.getD_some, List.cons.injEq, true_and]
        refine List.map_congr_left fun q hq => ?_
        rw [hlk q.1 (List.mem_map.mpr ⟨q, hq, rfl⟩)]
      · rw [hf, List.filter_filter]
        refine List.filter_congr fun p hp => ?_
        simp only [List.map_cons, List.contains_cons, Bool.not_or, bne]
        exact Bool.and_comm _ _
    | none =>
      have hknone : alookup kw n = none := (apop_eq_none_iff kw n).mp hpop
      have hnok : ∀ p ∈ kw, p.1 ≠ n := (alookup_eq_none_iff kw n).mp hknone
      unfold bindDefaults
      rw [hpop]
      dsimp only
      rw [ih kw hn' hk]
      dsimp only
      simp only [Prod.mk.injEq]
      refine ⟨?_, ?_⟩
      · rw [List.map_cons]
        dsimp only
        rw [hknone]
        simp
      · refine List.filter_congr fun p hp => ?_
        have hb : (p.1 == n) = false := by simpa using hnok p hp
        simp only [List.map_cons, List.contains_cons, hb, Bool.false_or]

/-- The attribute writes the priority pass performs, computed from the
original call: one write per priority-listed name that is supplied among
the named arguments, in priority-list order. -/
def prioWrites (ps : List String) (kwargs : Dict) : List Event :=
  ps.filterMap fun k => (alookup kwargs k).map fun v => Event.write k v

/-- The priority loop, characterized against the original call: under
plain descriptors (no `on_setattr`, no type checking) and a frozen table
not hitting the listed names, it performs exactly the `prioWrites` in
order, pops exactly the supplied listed names, records them as the
priority keywords, raises nothing, and leaves every unlisted attribute
unchanged. -/
theorem priorityGo_spec (cfg : ClassSpec)
    (hplain : ∀ d ∈ cfg.descs, d.on_setattr = none ∧ d.check_types = false) :
    ∀ (ps : List String) (st : Sys) (kwargs : Dict), ps.Nodup →
    (kwargs.map Prod.fst).Nodup →
    (∀ k ∈ ps, st.frozen.contains k = false) →
    ∃ dictF frozF,
      priorityGo cfg ps st kwargs =
        ({ dict := dictF, frozen := frozF,
           trace := st.trace ++ prioWrites ps kwargs },
         kwargs.filter (fun p => !(ps.contains p.1)),
         ps.filter (fun k => (alookup kwargs k).isSome),
         none) ∧
      ∀ m, ps.contains m = false → alookup dictF m = alookup st.dict m := by
  intro ps
  induction ps with
  | nil =>
    intro st kwargs _ _ _
    refine ⟨st.dict, st.frozen, ?_, fun m _ => rfl⟩
    simp [priorityGo, prioWrites]
  | cons k rest ih =>
    intro st kwargs hpn hkn hfr
    have hpn' := (List.nodup_cons.mp hpn).2
    have hkmem : k ∉ rest := (List.nodup_cons.mp hpn).1
    cases hpop : apop kwargs k with
    | none =>
      have hknone : alookup kwargs k = none :=
        (apop_eq_none_iff kwargs k).mp hpop
      have hnok : ∀ p ∈ kwargs, p.1 ≠ k :=
        (alookup_eq_none_iff kwargs k).mp hknone
      obtain ⟨dictF, frozF, heq, hpres⟩ :=
        ih st kwargs hpn' hkn fun x hx => hfr x (List.mem_cons_of_mem _ hx)
      have e1 : prioWrites (k :: rest) kwargs = prioWrites rest kwargs := by
        simp [prioWrites, List.filterMap_cons, hknone]
      have e2 : kwargs.filter (fun p => !((k :: rest).contains p.1)) =
          kwargs.filter (fun p => !(rest.contains p.1)) := by
        refine List.filter_congr fun p hp => ?_
        have hb : (p.1 == k) = false := by simpa using hnok p hp
        simp only [List.contains_cons, hb, Bool.false_or]
      have e3 : (k :: rest).filter (fun x => (alookup kwargs x).isSome) =
          rest.filter (fun x => (alookup kwargs x).isSome) := by
        rw [List.filter_cons, hknone]
        simp
      refine ⟨dictF, frozF, ?_, ?_⟩
      · unfold priorityGo
        rw [hpop, heq, e1, e2, e3]
      · intro m hm
        rw [List.contains_cons] at hm
        refine hpres m ?_
        cases hc : rest.contains m with
        | false => rfl
        | true => rw [hc] at hm; simp at hm
    | some p =>
      obtain ⟨v, kw'⟩ := p
      have hl := apop_some_lookup kwargs kw' k v hpop
      have hf := apop_some_filter kwargs kw' k v hkn hpop
      have hk' : (kw'.map Prod.fst).Nodup := by
        rw [hf]; exact filter_keys_nodup kwargs _ hkn
      have hlk : ∀ x ∈ rest, alookup kw' x = alookup kwargs x := by
        intro x hx
        rw [hf, alookup_filter_ne]
        refine if_neg fun hxe => hkmem ?_
        rw [← hxe]
        exact hx
      obtain ⟨frozF, hset, hfroz⟩ := objSetAttr_ok cfg st k v
        (hfr k (List.mem_cons_self _ _))
        (fun d hd =>
          ⟨(hplain d (List.mem_of_find?_eq_some hd)).1,
           fun hct => absurd
             ((hplain d (List.mem_of_find?_eq_some hd)).2)
             (by rw [hct]; simp)⟩)
      have hfr' : ∀ x ∈ rest,
          (({ dict := aset st.dict k v, frozen := frozF,
              trace := st.trace ++ [Event.write k v] } : Sys)).frozen.contains
            x = false := by
        intro x hx
        have hxk : ¬x = k := fun hxe => hkmem (by rw [← hxe]; exact hx)
        rw [hfroz x hxk]
        exact hfr x (List.mem_cons_of_mem _ hx)
      obtain ⟨dictF, frozF2, heq, hpres⟩ := ih
        ({ dict := aset st.dict k v, frozen := frozF,
           trace := st.trace ++ [Event.write k v] }) kw' hpn' hk' hfr'
      have e1 : st.trace ++ prioWrites (k :: rest) kwargs =
          (st.trace ++ [Event.write k v]) ++ prioWrites rest kw' := by
        have hw : prioWrites rest kw' = prioWrites rest kwargs := by
          unfold prioWrites
          exact List.filterMap_congr fun x hx => by rw [hlk x hx]
        rw [hw]
        simp [prioWrites, List.filterMap_cons, hl]
      have e2 : kwargs.filter (fun p => !((k :: rest).contains p.1)) =
          kw'.filter (fun p => !(rest.contains p.1)) := by
        rw [hf, List.filter_filter]
        refine (List.filter_congr fun p hp => ?_).symm
        simp only [List.contains_cons, Bool.not_or, bne]
        exact Bool.and_comm _ _
      have e3 : (k :: rest).filter (fun x => (alookup kwargs x).isSome) =
          k :: rest.filter (fun x => (alookup kw' x).isSome) := by
        have ht : rest.filter (fun x => (alookup kw' x).isSome) =
            rest.filter (fun x => (alookup kwargs x).isSome) :=
          List.filter_congr fun x hx => by rw [hlk x hx]
        rw [ht, List.filter_cons, hl]
        simp
      refine ⟨dictF, frozF2, ?_, ?_⟩
      · unfold priorityGo
        rw [hpop]
        dsimp only
        rw [hset]
        dsimp only
        rw [heq]
        dsimp only
        rw [e1, e2, e3]
      · intro m hm
        rw [List.contains_cons] at hm
        have hmk : ¬m = k := by
          cases hc : (m == k) with
          | false => simpa using hc
          | true => rw [hc] at hm; simp at hm
        have hmr : rest.contains m = false := by
          cases hc : rest.contains m with
          | false => rfl
          | true => rw [hc] at hm; simp at hm
        rw [hpres m hmr]
        dsimp only
        rw [alookup_aset]
        exact if_neg fun hke => hmk hke.symm

/-- The final write loop, characterized: with unique keys, a frozen table
not hitting them, and descriptors whose transform is absent and whose
type check (if enabled) accepts the written value, it appends exactly one
`write` event per pair in order, raises nothing, and the resulting
instance dictionary resolves each written key to its written value and
every other key as before. -/
theorem writeAll_spec (cfg : ClassSpec) :
    ∀ (pairs : Dict) (st : Sys),
    (pairs.map Prod.fst).Nodup →
    (∀ p ∈ pairs, st.frozen.contains p.1 = false) →
    (∀ p ∈ pairs, ∀ d, cfg.descs.find? (fun d => d.name = p.1) = some d →
      d.on_setattr = none ∧ (d.check_types = true → d.annotation p.2 = true)) →
    ∃ dictF frozF,
      writeAll cfg st pairs =
        ({ dict := dictF, frozen := frozF,
           trace := st.trace ++ pairs.map (fun p => Event.write p.1 p.2) },
         none) ∧
      ∀ m, alookup dictF m =
        match alookup pairs m with
        | some w => some w
        | none => alookup st.dict m := by
  intro pairs
  induction pairs with
  | nil =>
    intro st _ _ _
    refine ⟨st.dict, st.frozen, by simp [writeAll], fun m => ?_⟩
    simp [alookup]
  | cons q rest ih =>
    obtain ⟨k, v⟩ := q
    intro st hn hfr hok
    simp only [List.map_cons, List.nodup_cons] at hn
    have hn' := hn.2
    have hkmem : k ∉ rest.map Prod.fst := hn.1
    have hrestk : alookup rest k = none := by
      rw [alookup_eq_none_iff]
      intro p hp hpk
      exact hkmem (List.mem_map.mpr ⟨p, hp, hpk⟩)
    obtain ⟨frozF, hset, hfroz⟩ := objSetAttr_ok cfg st k v
      (hfr (k, v) (List.mem_cons_self _ _))
      (fun d hd => hok (k, v) (List.mem_cons_self _ _) d hd)
    have hfr' : ∀ p ∈ rest,
        (({ dict := aset st.dict k v, frozen := frozF,
            trace := st.trace ++ [Event.write k v] } : Sys)).frozen.contains
          p.1 = false := by
      intro p hp
      have hpk : ¬p.1 = k := fun hpe =>
        hkmem (List.mem_map.mpr ⟨p, hp, hpe⟩)
      rw [hfroz p.1 hpk]
      exact hfr p (List.mem_cons_of_mem _ hp)
    obtain ⟨dictF, frozF2, heq, hchar⟩ := ih
      ({ dict := aset st.dict k v, frozen := frozF,
         trace := st.trace ++ [Event.write k v] }) hn' hfr'
      (fun p hp => hok p (List.mem_cons_of_mem _ hp))
    have e1 : st.trace ++
        (((k, v) :: rest).map fun p => Event.write p.1 p.2) =
        (st.trace ++ [Event.write k v]) ++
          (rest.map fun p => Event.write p.1 p.2) := by
      simp
    refine ⟨dictF, frozF2, ?_, ?_⟩
    · unfold writeAll
      rw [hset]
      dsimp only
      rw [heq]
      dsimp only
      rw [e1]
    · intro m
      by_cases hm : m = k
      · subst hm
        rw [hchar m]
        dsimp only
        rw [hrestk]
        dsimp only
        rw [alookup_aset, if_pos rfl]
        simp [alookup]
      · rw [hchar m]
        have hlc : alookup ((k, v) :: rest) m = alookup rest m := by
          simp only [alookup]
          rw [if_neg fun hke => hm hke.symm]
        rw [hlc]
        cases hr : alookup rest m with
        | some w => rfl
        | none =>
          dsimp only
          rw [alookup_aset]
          exact if_neg fun hke => hm hke.symm

/-- Any `setattr` outcome only appends to the trace. -/
theorem objSetAttr_trace (cfg : ClassSpec) (st : Sys) (k : String)
    (v : PyVal) :
    ∃ t, ((objSetAttr cfg st k v).1).trace = st.trace ++ t := by
  unfold objSetAttr
  cases hf : cfg.descs.find? (fun d => d.name = k) with
  | none => exact ⟨[Event.write k v], rfl⟩
  | some d =>
    by_cases hfr : st.frozen.contains k
    · have hm : k ∈ st.frozen := by simpa using hfr
      exact ⟨[], by simp [hm]⟩
    · have hm : ¬k ∈ st.frozen := by simpa using hfr
      cases hos : d.onSetRes v with
      | error e => exact ⟨[], by simp [hm, hos]⟩
      | ok v' =>
        by_cases hchk : (d.check_types && !(d.annotation v')) = true
        · exact ⟨[], by simp [hm, hos, hchk]⟩
        · refine ⟨[Event.write k v'], ?_⟩
          simp only [Bool.not_eq_true] at hchk
          simp [hm, hos, hchk]

/-- Any run of the write loop only appends to the trace. -/
theorem writeAll_trace (cfg : ClassSpec) :
    ∀ (pairs : Dict) (st : Sys),
    ∃ t, ((writeAll cfg st pairs).1).trace = st.trace ++ t := by
  intro pairs
  induction pairs with
  | nil => intro st; exact ⟨[], by simp [writeAll]⟩
  | cons q rest ih =>
    intro st
    obtain ⟨k, v⟩ := q
    unfold writeAll
    obtain ⟨t1, ht1⟩ := objSetAttr_trace cfg st k v
    cases hobj : objSetAttr cfg st k v with
    | mk st' err =>
      rw [hobj] at ht1
      dsimp only at ht1
      cases err with
      | some e => exact ⟨t1, by dsimp only; exact ht1⟩
      | none =>
        obtain ⟨t2, ht2⟩ := ih st'
        refine ⟨t1 ++ t2, ?_⟩
        dsimp only
        rw [ht2, ht1, List.append_assoc]

/-- The hook loop in closed form: it appends the hook events of the
defined hooks (the underscore-wrapped one always, because the base class
defines it) and raises nothing. -/
theorem runHooks_eq (cfg : ClassSpec) (st : Sys) :
    runHooks cfg st =
      ({ st with trace := st.trace ++
        ((if cfg.definesDunderPostInit then [Event.hook "__post_init__"]
          else []) ++ [Event.hook "_post_init_"] ++
          (if cfg.definesPlainPostInit then [Event.hook "post_init"]
            else [])) }, none) := by
  unfold runHooks
  by_cases h1 : cfg.definesDunderPostInit <;>
    by_cases h3 : cfg.definesPlainPostInit <;>
      simp [hasPostInitHook, h1, h3]

/-- The hook loop only appends to the trace. -/
theorem runHooks_trace (cfg : ClassSpec) (st : Sys) :
    ∃ t, ((runHooks cfg st).1).trace = st.trace ++ t :=
  ⟨_, by rw [runHooks_eq]⟩

/-- The class used by the spec's priority example: priority list
`[a, c, b]`, four required fields `a`, `b`, `c`, `d` (as in the
repository's `PriorityKwargs` test class, whose fields have no
defaults). -/
def prioExampleCls : ClassSpec :=
  { clsName := "PriorityKwargs",
    priority := some ["a", "c", "b"],
    kwargsNoDefault := ["a", "b", "c", "d"],
    descs := [{ name := "a" }, { name := "b" }, { name := "c" },
      { name := "d" }] }

/-- C7: with a configured priority list, the synthesized constructor
writes each priority-listed field present among the named arguments onto
the instance in the exact order of the priority list, before everything
else the constructor does (the run's trace starts with exactly those
writes); in particular, for the priority list `[a, c, b]` with all of
`a`, `b`, `c`, `d` supplied, the side effects are the writes of `a`, `c`,
`b`, then the delegation, then the write of `d`. -/
theorem c7_priority_order (cfg : ClassSpec) (st : Sys) (args : List PyVal)
    (kwargs : Dict) (ps : List String)
    (hps : cfg.priority = some ps)
    (hplain : ∀ d ∈ cfg.descs, d.on_setattr = none ∧ d.check_types = false)
    (hpn : ps.Nodup) (hkn : (kwargs.map Prod.fst).Nodup)
    (hfr : ∀ k ∈ ps, st.frozen.contains k = false) :
    (∃ rest, (auto_init cfg st args kwargs).1.trace =
      st.trace ++ prioWrites ps kwargs ++ rest) ∧
    auto_init prioExampleCls {} []
      [("a", PyVal.pyInt 1), ("b", PyVal.pyInt 2), ("c", PyVal.pyInt 3),
       ("d", PyVal.pyInt 4)] =
      ({ dict := [("a", PyVal.pyInt 1), ("c", PyVal.pyInt 3),
          ("b", PyVal.pyInt 2), ("d", PyVal.pyInt 4)], frozen := [],
         trace := [Event.write "a" (PyVal.pyInt 1),
           Event.write "c" (PyVal.pyInt 3), Event.write "b" (PyVal.pyInt 2),
           Event.superInit [], Event.write "d" (PyVal.pyInt 4),
           Event.hook "_post_init_"] }, none) := by
  constructor
  · obtain ⟨dictF, frozF, heq, _⟩ :=
      priorityGo_spec cfg hplain ps st kwargs hpn hkn hfr
    have hpp : priorityPass cfg st kwargs =
        ({ dict := dictF, frozen := frozF,
           trace := st.trace ++ prioWrites ps kwargs },
         kwargs.filter (fun p => !(ps.contains p.1)),
         ps.filter (fun k => (alookup kwargs k).isSome),
         none) := by
      unfold priorityPass
      rw [hps]
      exact heq
    unfold auto_init
    rw [hpp]
    dsimp only
    by_cases hargs : (decide (args.length ≠ 0) && !cfg.allowArgs) = true
    · rw [if_pos hargs]
      exact ⟨[], by simp⟩
    · rw [if_neg hargs]
      cases hha : handle_args args
          (kwargs.filter (fun p => !(ps.contains p.1)))
          (cfg.kwargsNoDefault ++ cfg.kwargsWithDefault.map Prod.fst)
          cfg.clsName with
      | error e => exact ⟨[], by simp⟩
      | ok kw2 =>
        dsimp only
        rcases hbr : bindRequired cfg.kwargsNoDefault
          (ps.filter (fun k => (alookup kwargs k).isSome)) kw2 with
          ⟨ik1, rq, kw3⟩
        try rw [hbr]
        dsimp only
        rcases hbd : bindDefaults cfg.kwargsWithDefault kw3 with ⟨ik2, kw4⟩
        try rw [hbd]
        dsimp only
        have hsc2 : ∀ stx : Sys, ((superCall cfg stx kw4).1).trace =
            stx.trace ++ [Event.superInit kw4] := by
          intro stx
          unfold superCall
          cases cfg.superBehavior kw4 <;> rfl
        rcases hsc : superCall cfg
          ({ dict := dictF,
             frozen := frozF,
             trace := st.trace ++ prioWrites ps kwargs }) kw4 with ⟨st2, err2⟩
        have hst2 : st2.trace =
            (st.trace ++ prioWrites ps kwargs) ++ [Event.superInit kw4] := by
          have hx := hsc2
            ({ dict := dictF,
               frozen := frozF,
               trace := st.trace ++ prioWrites ps kwargs })
          rw [hsc] at hx
          exact hx
        try rw [hsc]
        cases err2 with
        | some e =>
          dsimp only
          exact ⟨[Event.superInit kw4], by rw [hst2, List.append_assoc]⟩
        | none =>
          dsimp only
          by_cases hrq : rq.isEmpty = true
          · rw [if_pos hrq]
            obtain ⟨t3, ht3⟩ := writeAll_trace cfg (aupdate ik1 ik2) st2
            rcases hwa : writeAll cfg st2 (aupdate ik1 ik2) with ⟨st3, err3⟩
            rw [hwa] at ht3
            dsimp only at ht3
            try rw [hwa]
            cases err3 with
            | some e =>
              dsimp only
              refine ⟨[Event.superInit kw4] ++ t3, ?_⟩
              rw [ht3, hst2]
              simp [List.append_assoc]
            | none =>
              dsimp only
              obtain ⟨t4, ht4⟩ := runHooks_trace cfg st3
              refine ⟨[Event.superInit kw4] ++ t3 ++ t4, ?_⟩
              rw [ht4, ht3, hst2]
              simp [List.append_assoc]
          · rw [if_neg hrq]
            dsimp only
            exact ⟨[Event.superInit kw4], by rw [hst2, List.append_assoc]⟩
  · rfl

/-- C7 witness: the priority prefix property applied to the concrete
`[a, c, b]` example class. -/
theorem c7_priority_order_witness :
    ∃ rest, (auto_init prioExampleCls {} []
      [("a", PyVal.pyInt 1), ("b", PyVal.pyInt 2), ("c", PyVal.pyInt 3),
       ("d", PyVal.pyInt 4)]).1.trace =
      ({} : Sys).trace ++ prioWrites ["a", "c", "b"]
        [("a", PyVal.pyInt 1), ("b", PyVal.pyInt 2), ("c", PyVal.pyInt 3),
         ("d", PyVal.pyInt 4)] ++ rest :=
  (c7_priority_order prioExampleCls {} []
    [("a", PyVal.pyInt 1), ("b", PyVal.pyInt 2), ("c", PyVal.pyInt 3),
     ("d", PyVal.pyInt 4)] ["a", "c", "b"] rfl
    (by
      intro d hd
      simp only [prioExampleCls, List.mem_cons,
        List.not_mem_nil, or_false] at hd
      rcases hd with h | h | h | h <;> (subst h; exact ⟨rfl, rfl⟩))
    (by decide) (by decide) (by decide)).1

/-! ## C1: the missing-required error is raised after delegation -/

/-- Lookup through a key filter. -/
theorem alookup_filter_key (l : Dict) (q : String → Bool) (n : String) :
    alookup (l.filter fun p => q p.1) n =
      if q n = true then alookup l n else none := by
  induction l with
  | nil => by_cases hq : q n = true <;> simp [alookup, hq]
  | cons p rest ih =>
    obtain ⟨k, v⟩ := p
    by_cases hk : q k = true
    · rw [List.filter_cons, if_pos (by simpa using hk)]
      by_cases hkn2 : k = n
      · subst hkn2
        simp [alookup, hk]
      · simp only [alookup, if_neg hkn2]
        exact ih
    · rw [List.filter_cons,
        if_neg (by simpa using hk)]
      by_cases hkn2 : k = n
      · subst hkn2
        rw [ih]
        have : q k = false := by simpa using hk
        simp [alookup, this]
      · rw [ih]
        by_cases hq : q n = true <;> simp [alookup, hq, hkn2]

/-- Lookup through the plain ancestor writes applied by delegation. -/
theorem alookup_foldl_aset (ws : Dict) :
    ∀ (dict : Dict) (n : String), ((ws.map Prod.fst).contains n) = false →
    alookup (ws.foldl (fun d p => aset d p.1 p.2) dict) n =
      alookup dict n := by
  induction ws with
  | nil => intro dict n _; rfl
  | cons p rest ih =>
    intro dict n hn
    obtain ⟨k, v⟩ := p
    simp only [List.map_cons, List.contains_cons, Bool.or_eq_false_iff] at hn
    rw [List.foldl_cons]
    rw [ih (aset dict k v) n (by simpa using hn.2)]
    rw [alookup_aset]
    exact if_neg fun hke => (by simpa using hn.1 : ¬n = k) hke.symm

/-- `_handle_args` with no positional arguments returns the keyword
dictionary unchanged. -/
theorem handle_args_nil (kw : Dict) (names : List String) (cn : String) :
    handle_args [] kw names cn = Except.ok kw := by
  simp [handle_args, handleArgsGo]

/-- C1 (amended): when a call omits required fields, the ancestor
constructor is invoked first with the remaining named arguments and only
afterwards is the missing-required-field error raised; the error is
raised before the post-delegation write pass, so at the moment the error
surfaces the trace contains exactly the priority-pass writes followed by
the delegation and nothing else, and the instance carries
ancestor-established state and priority-written fields of this type, but
none of this type's remaining required/defaulted field values. -/
theorem c1_missing_error_after_delegation (cfg : ClassSpec) (st : Sys)
    (kwargs : Dict) (ps : List String) (ws : Dict)
    (hps : cfg.priority = some ps)
    (hplain : ∀ d ∈ cfg.descs, d.on_setattr = none ∧ d.check_types = false)
    (hpn : ps.Nodup) (hkn : (kwargs.map Prod.fst).Nodup)
    (hnn : cfg.kwargsNoDefault.Nodup)
    (hfr : ∀ k ∈ ps, st.frozen.contains k = false)
    (hsup : ∀ kw, cfg.superBehavior kw = Except.ok ws)
    (hmiss : cfg.kwargsNoDefault.filter
      (fun n => (alookup kwargs n).isNone) ≠ []) :
    ∃ dictF frozF kwLeft,
      auto_init cfg st [] kwargs =
        ({ dict := dictF, frozen := frozF,
           trace := st.trace ++ prioWrites ps kwargs ++
             [Event.superInit kwLeft] },
         some (get_init_type_error
           (cfg.kwargsNoDefault.filter fun n => (alookup kwargs n).isNone)
           cfg.clsName cfg.usesAutoInit)) ∧
      ∀ n, ps.contains n = false → ((ws.map Prod.fst).contains n) = false →
        alookup dictF n = alookup st.dict n := by
  obtain ⟨dict1, frozF, heq, hpres⟩ :=
    priorityGo_spec cfg hplain ps st kwargs hpn hkn hfr
  have hpp : priorityPass cfg st kwargs =
      ({ dict := dict1, frozen := frozF,
         trace := st.trace ++ prioWrites ps kwargs },
       kwargs.filter (fun p => !(ps.contains p.1)),
       ps.filter (fun k => (alookup kwargs k).isSome),
       none) := by
    unfold priorityPass
    rw [hps]
    exact heq
  have hkn1 : ((kwargs.filter (fun p => !(ps.contains p.1))).map
      Prod.fst).Nodup := filter_keys_nodup kwargs _ hkn
  have hbr := bindRequired_spec
    (ps.filter (fun k => (alookup kwargs k).isSome)) cfg.kwargsNoDefault
    (kwargs.filter (fun p => !(ps.contains p.1))) hnn hkn1
  have hrq : cfg.kwargsNoDefault.filter
      (fun n => (alookup (kwargs.filter
        (fun p => !(ps.contains p.1))) n).isNone &&
        !((ps.filter (fun k => (alookup kwargs k).isSome)).contains n)) =
      cfg.kwargsNoDefault.filter
        (fun n => (alookup kwargs n).isNone) := by
    refine List.filter_congr fun n _ => ?_
    rw [alookup_filter_key kwargs (fun x => !(ps.contains x)) n]
    by_cases hin : ps.contains n = true
    · have hmemps : n ∈ ps := by simpa using hin
      have hq : (!(ps.contains n)) = false := by simp [hmemps]
      rw [hq]
      simp only [Bool.false_eq_true, if_false, Option.isNone_none,
        Bool.true_and]
      by_cases hsome : (alookup kwargs n).isSome = true
      · have hmem : n ∈ ps.filter (fun k => (alookup kwargs k).isSome) := by
          rw [List.mem_filter]
          exact ⟨hmemps, hsome⟩
        have hcont : ((ps.filter
            (fun k => (alookup kwargs k).isSome)).contains n) = true := by
          simpa using hmem
        rw [hcont]
        cases ha : alookup kwargs n with
        | none => rw [ha] at hsome; simp at hsome
        | some w => simp
      · have hnone : (alookup kwargs n) = none := by
          cases ha : alookup kwargs n with
          | none => rfl
          | some w => rw [ha] at hsome; simp at hsome
        have hcont : ((ps.filter
            (fun k => (alookup kwargs k).isSome)).contains n) = false := by
          cases hc : ((ps.filter
              (fun k => (alookup kwargs k).isSome)).contains n) with
          | false => rfl
          | true =>
            exfalso
            have hmem2 : n ∈ ps.filter
                (fun k => (alookup kwargs k).isSome) := by simpa using hc
            have hpred := (List.mem_filter.mp hmem2).2
            rw [hnone] at hpred
            simp at hpred
        rw [hcont, hnone]
        simp
    · have hq : (!(ps.contains n)) = true := by
        simpa using hin
      rw [hq]
      simp only [if_pos rfl]
      have hcont : ((ps.filter
          (fun k => (alookup kwargs k).isSome)).contains n) = false := by
        cases hc : ((ps.filter
            (fun k => (alookup kwargs k).isSome)).contains n) with
        | false => rfl
        | true =>
          exfalso
          have hmem2 : n ∈ ps.filter
              (fun k => (alookup kwargs k).isSome) := by simpa using hc
          have hmemps := (List.mem_filter.mp hmem2).1
          have : ps.contains n = true := by simpa using hmemps
          exact hin this
      rw [hcont]
      simp
  rcases hbd : bindDefaults cfg.kwargsWithDefault
    ((kwargs.filter (fun p => !(ps.contains p.1))).filter
      (fun p => !(cfg.kwargsNoDefault.contains p.1))) with ⟨ik2, kw4⟩
  have hsc : superCall cfg
      ({ dict := dict1, frozen := frozF,
         trace := st.trace ++ prioWrites ps kwargs }) kw4 =
      ({ dict := ws.foldl (fun d p => aset d p.1 p.2) dict1,
         frozen := frozF,
         trace := (st.trace ++ prioWrites ps kwargs) ++
           [Event.superInit kw4] }, none) := by
    unfold superCall
    rw [hsup kw4]
  have hrqne : (cfg.kwargsNoDefault.filter
      (fun n => (alookup kwargs n).isNone)).isEmpty = false := by
    cases hc : cfg.kwargsNoDefault.filter
        (fun n => (alookup kwargs n).isNone) with
    | nil => exact absurd hc hmiss
    | cons a l => rfl
  refine ⟨ws.foldl (fun d p => aset d p.1 p.2) dict1, frozF, kw4, ?_, ?_⟩
  · unfold auto_init
    rw [hpp]
    dsimp only
    rw [if_neg (by simp)]
    rw [handle_args_nil]
    dsimp only
    rw [hbr]
    dsimp only
    rw [hrq, hbd]
    dsimp only
    rw [hsc]
    dsimp only
    rw [if_neg (by rw [hrqne]; exact Bool.false_ne_true)]
  · intro n hnps hnws
    rw [alookup_foldl_aset ws dict1 n hnws]
    exact hpres n hnps

/-- The class used for the C1 counterexample: priority list `[p]` where
`p` is a defaulted managed field and `r` is a required one. -/
def c1Cls : ClassSpec :=
  { clsName := "A",
    priority := some ["p"],
    kwargsNoDefault := ["r"],
    kwargsWithDefault := [("p", PyVal.pyNone)],
    descs := [{ name := "p", default := PyVal.pyNone }, { name := "r" }] }

/-- C1 counterexample: constructing with the priority field `p` supplied
and the required field `r` omitted raises the missing-required error, yet
at that moment the instance already carries the value of `p` — a managed
field of this very type — contradicting the claim that the instance
carries none of this type's managed-field values when the error
surfaces. -/
theorem c1_counterexample :
    (auto_init c1Cls {} [] [("p", PyVal.pyInt 5)]).2 =
      some (PyError.typeError
        "A.__init__() missing 1 required keyword-only argument: 'r'") ∧
    alookup (auto_init c1Cls {} [] [("p", PyVal.pyInt 5)]).1.dict "p" =
      some (PyVal.pyInt 5) ∧
    c1Cls.descs.map Descriptor.name = ["p", "r"] := by
  refine ⟨rfl, rfl, rfl⟩

/-- The class used for the C1 witness: like `c1Cls` but with an ancestor
constructor that records a field of its own, to exhibit
ancestor-established state at the moment the error surfaces. -/
def c1WitnessCls : ClassSpec :=
  { clsName := "A",
    priority := some ["p"],
    kwargsNoDefault := ["r"],
    kwargsWithDefault := [("p", PyVal.pyNone)],
    descs := [{ name := "p", default := PyVal.pyNone }, { name := "r" }],
    superBehavior := fun _ => Except.ok [("anc", PyVal.pyInt 0)] }

/-- C1 witness: the amended theorem applied to the concrete class. -/
theorem c1_missing_error_after_delegation_witness :
    ∃ dictF frozF kwLeft,
      auto_init c1WitnessCls {} [] [("p", PyVal.pyInt 5)] =
        ({ dict := dictF, frozen := frozF,
           trace := ({} : Sys).trace ++
             prioWrites ["p"] [("p", PyVal.pyInt 5)] ++
             [Event.superInit kwLeft] },
         some (get_init_type_error
           (c1WitnessCls.kwargsNoDefault.filter fun n =>
             (alookup [("p", PyVal.pyInt 5)] n).isNone)
           c1WitnessCls.clsName c1WitnessCls.usesAutoInit)) ∧
      ∀ n, (["p"] : List String).contains n = false →
        (([("anc", PyVal.pyInt 0)] : Dict).map Prod.fst).contains n =
          false →
        alookup dictF n = alookup ({} : Sys).dict n :=
  c1_missing_error_after_delegation c1WitnessCls {} [("p", PyVal.pyInt 5)]
    ["p"] [("anc", PyVal.pyInt 0)] rfl
    (by
      intro d hd
      simp only [c1WitnessCls, List.mem_cons, List.not_mem_nil,
        or_false] at hd
      rcases hd with h | h <;> (subst h; exact ⟨rfl, rfl⟩))
    (by decide) (by decide) (by decide) (by decide)
    (fun kw => rfl) (by decide)

/-! ## C9: `get_dict` round-trips through the synthesized constructor -/

/-- Lookup across an append. -/
theorem alookup_append (a b : Dict) (n : String) :
    alookup (a ++ b) n =
      match alookup a n with
      | some v => some v
      | none => alookup b n := by
  induction a with
  | nil => simp [alookup]
  | cons p rest ih =>
    by_cases hp : p.1 = n
    · simp [alookup, hp]
    · simp only [List.cons_append, alookup, if_neg hp]
      exact ih

/-- A present key resolves to a value. -/
theorem alookup_isSome_of_mem_keys (l : Dict) (n : String)
    (h : n ∈ l.map Prod.fst) : (alookup l n).isSome = true := by
  induction l with
  | nil => simp at h
  | cons p rest ih =>
    by_cases hp : p.1 = n
    · simp [alookup, hp]
    · simp only [List.map_cons, List.mem_cons] at h
      rcases h with h | h
      · exact absurd h.symm hp
      · simp only [alookup, if_neg hp]
        exact ih h

/-- A resolved binding is an element of the dictionary. -/
theorem alookup_some_mem (l : Dict) (n : String) (v : PyVal)
    (h : alookup l n = some v) : (n, v) ∈ l := by
  induction l with
  | nil => simp [alookup] at h
  | cons p rest ih =>
    by_cases hp : p.1 = n
    · simp only [alookup, if_pos hp] at h
      cases h
      have hpe : (n, p.2) = p := by rw [← hp]
      rw [hpe]
      exact List.mem_cons_self _ _
    · simp only [alookup, if_neg hp] at h
      exact List.mem_cons_of_mem _ (ih h)

/-- Looking up a descriptor's name in a name-keyed map over descriptors
with unique names. -/
theorem alookup_map_name (f : Descriptor → PyVal) :
    ∀ (descs : List Descriptor) (d : Descriptor),
    (descs.map Descriptor.name).Nodup → d ∈ descs →
    alookup (descs.map fun d => (d.name, f d)) d.name = some (f d) := by
  intro descs
  induction descs with
  | nil => intro d _ hd; simp at hd
  | cons d0 rest ih =>
    intro d hn hd
    simp only [List.map_cons, List.nodup_cons] at hn
    rcases List.mem_cons.mp hd with h | h
    · subst h
      simp [alookup]
    · by_cases hname : d0.name = d.name
      · exfalso
        exact hn.1 (hname ▸ List.mem_map.mpr ⟨d, h, rfl⟩)
      · simp only [List.map_cons, alookup, if_neg hname]
        exact ih d hn.2 h

/-- `dict.update` with fresh, unique keys is an append. -/
theorem aupdate_append (d2 : Dict) :
    ∀ (d1 : Dict), (d2.map Prod.fst).Nodup →
    (∀ p ∈ d2, alookup d1 p.1 = none) →
    aupdate d1 d2 = d1 ++ d2 := by
  induction d2 with
  | nil => intro d1 _ _; simp [aupdate]
  | cons p rest ih =>
    intro d1 hn hdisj
    obtain ⟨k, v⟩ := p
    simp only [List.map_cons, List.nodup_cons] at hn
    have hstep : aupdate d1 ((k, v) :: rest) =
        aupdate (aset d1 k v) rest := rfl
    rw [hstep, aset_of_lookup_none d1 k v
      (hdisj (k, v) (List.mem_cons_self _ _))]
    rw [ih (d1 ++ [(k, v)]) hn.2 ?_]
    · simp
    · intro q hq
      rw [alookup_append]
      rw [hdisj q (List.mem_cons_of_mem _ hq)]
      have hqk : ¬q.1 = k := fun hqe =>
        hn.1 (hqe ▸ List.mem_map.mpr ⟨q, hq, rfl⟩)
      simp [alookup, hqk]
      exact fun h => hqk h.symm

/-- Forward shape of a successful `get_dict`: the result maps each
descriptor, in order, to its resolved (stored or default) value, and no
resolved value is the `Empty` sentinel. -/
theorem get_dict_ok_shape (cn : String) (dict : Dict) :
    ∀ (descs : List Descriptor) (m : Dict),
    get_dict descs cn dict = Except.ok m →
    m = descs.map (fun d => (d.name, (alookup dict d.name).getD d.default)) ∧
    ∀ d ∈ descs, (alookup dict d.name).getD d.default ≠ PyVal.empty := by
  intro descs
  induction descs with
  | nil =>
    intro m h
    simp only [get_dict] at h
    cases h
    exact ⟨rfl, by simp⟩
  | cons d rest ih =>
    intro m h
    simp only [get_dict] at h
    cases hg : d.getOn cn dict with
    | error e => rw [hg] at h; exact Except.noConfusion h
    | ok v =>
      rw [hg] at h
      cases hr : get_dict rest cn dict with
      | error e => rw [hr] at h; exact Except.noConfusion h
      | ok m' =>
        rw [hr] at h
        cases h
        obtain ⟨hm', hne⟩ := ih m' hr
        have hgv : (alookup dict d.name).getD d.default = v ∧
            (alookup dict d.name).getD d.default ≠ PyVal.empty := by
          unfold Descriptor.getOn at hg
          by_cases hv : ((alookup dict d.name).getD d.default) = PyVal.empty
          · rw [if_pos hv] at hg
            exact Except.noConfusion hg
          · rw [if_neg hv] at hg
            cases hg
            exact ⟨rfl, hv⟩
        constructor
        · rw [List.map_cons, ← hm', hgv.1]
        · intro d' hd'
          rcases List.mem_cons.mp hd' with h | h
          · subst h; exact hgv.2
          · exact hne d' h

/-- Reverse direction: when every resolved value is non-sentinel,
`get_dict` succeeds with the resolved map. -/
theorem get_dict_of_resolve (cn : String) (dict : Dict) :
    ∀ (descs : List Descriptor),
    (∀ d ∈ descs, (alookup dict d.name).getD d.default ≠ PyVal.empty) →
    get_dict descs cn dict = Except.ok
      (descs.map fun d => (d.name, (alookup dict d.name).getD d.default)) := by
  intro descs
  induction descs with
  | nil => intro _; rfl
  | cons d rest ih =>
    intro hne
    have hg : d.getOn cn dict =
        Except.ok ((alookup dict d.name).getD d.default) := by
      unfold Descriptor.getOn
      rw [if_neg (hne d (List.mem_cons_self _ _))]
    simp only [get_dict, hg]
    rw [ih fun d' hd' => hne d' (List.mem_cons_of_mem _ hd')]
    rfl

/-- Keys of the required-binding pairs, when every required name is
supplied. -/
theorem filterMap_lookup_keys (m : Dict) :
    ∀ (names : List String),
    (∀ n ∈ names, (alookup m n).isSome = true) →
    (names.filterMap fun n => (alookup m n).map fun v => (n, v)).map
      Prod.fst = names := by
  intro names
  induction names with
  | nil => intro _; rfl
  | cons n rest ih =>
    intro hs
    cases ha : alookup m n with
    | none =>
      have := hs n (List.mem_cons_self _ _)
      rw [ha] at this
      simp at this
    | some v =>
      rw [List.filterMap_cons, ha]
      simp only [Option.map_some', List.map_cons]
      rw [ih fun x hx => hs x (List.mem_cons_of_mem _ hx)]

/-- The class configuration the synthesizer (`_update_init` with
`_get_auto_init_kwargs`) computes for a class whose fields are exactly
`descs`, under ZnInit's default type-level configuration (no priority
list, positional arguments allowed, `ZnInit.__init__` as the boundary
constructor, no optional hooks defined). -/
def autoClassOf (clsName : String) (descs : List Descriptor) : ClassSpec :=
  { clsName := clsName,
    kwargsNoDefault :=
      (descs.filter fun d => d.default = PyVal.empty).map Descriptor.name,
    kwargsWithDefault :=
      (descs.filter fun d => !(decide (d.default = PyVal.empty))).map
        fun d => (d.name, d.default),
    descs := descs }

/-- C9: for a fully constructed (all fields readable) instance of a type
with a synthesized constructor and no on-set transforms, the map produced
by `get_dict` fed back as the keyword arguments of a fresh construction
succeeds, and the fresh instance's `get_dict` is field-for-field equal to
the original's. -/
theorem c9_get_dict_roundtrip (clsName cn : String)
    (descs : List Descriptor) (dict0 : Dict) (m : Dict)
    (hnd : (descs.map Descriptor.name).Nodup)
    (hplain : ∀ d ∈ descs, d.on_setattr = none)
    (hm : get_dict descs cn dict0 = Except.ok m)
    (hanns : ∀ d ∈ descs, d.check_types = true →
      ∀ v, alookup m d.name = some v → d.annotation v = true) :
    ∃ stF, auto_init (autoClassOf clsName descs) {} [] m = (stF, none) ∧
      get_dict descs cn stF.dict = Except.ok m := by
  obtain ⟨hshape, hnem⟩ := get_dict_ok_shape cn dict0 descs m hm
  have hkeys : m.map Prod.fst = descs.map Descriptor.name := by
    rw [hshape, List.map_map]
    rfl
  have hkn : (m.map Prod.fst).Nodup := by rw [hkeys]; exact hnd
  have hmlook : ∀ d ∈ descs, alookup m d.name =
      some ((alookup dict0 d.name).getD d.default) := by
    intro d hd
    rw [hshape]
    exact alookup_map_name _ descs d hnd hd
  have hperm := List.filter_append_perm
    (fun d => decide (d.default = PyVal.empty)) descs
  have hnodNames :
      ((descs.filter fun d => decide (d.default = PyVal.empty)).map
        Descriptor.name ++
        (descs.filter fun d => !(decide (d.default = PyVal.empty))).map
          Descriptor.name).Nodup := by
    rw [← List.map_append]
    exact ((hperm.map Descriptor.name).nodup_iff).mpr hnd
  have hreqN := (List.nodup_append.mp hnodNames).1
  have hdftN := (List.nodup_append.mp hnodNames).2.1
  have hdisjN := (List.nodup_append.mp hnodNames).2.2
  have hreqSome : ∀ n ∈ (descs.filter
      fun d => decide (d.default = PyVal.empty)).map Descriptor.name,
      (alookup m n).isSome = true := by
    intro n hn
    obtain ⟨d, hdmem, hdn⟩ := List.mem_map.mp hn
    have hd : d ∈ descs := List.mem_of_mem_filter hdmem
    rw [← hdn, hmlook d hd]
    rfl
  have hbr := bindRequired_spec []
    ((descs.filter fun d => decide (d.default = PyVal.empty)).map
      Descriptor.name) m hreqN hkn
  have hrqnil : ((descs.filter fun d => decide (d.default = PyVal.empty)).map
      Descriptor.name).filter
      (fun n => (alookup m n).isNone &&
        !(([] : List String).contains n)) = [] := by
    rw [List.filter_eq_nil_iff]
    intro n hn
    have hs := hreqSome n hn
    cases ha : alookup m n with
    | none => rw [ha] at hs; simp at hs
    | some v => simp [ha]
  have hdftkeys : ((descs.filter
      fun d => !(decide (d.default = PyVal.empty))).map
        fun d => (d.name, d.default)).map Prod.fst =
      (descs.filter fun d => !(decide (d.default = PyVal.empty))).map
        Descriptor.name := by
    rw [List.map_map]
    rfl
  have hkw3n : ((m.filter fun p =>
      !(((descs.filter fun d => decide (d.default = PyVal.empty)).map
        Descriptor.name).contains p.1)).map Prod.fst).Nodup :=
    filter_keys_nodup m _ hkn
  have hbd := bindDefaults_spec
    ((descs.filter fun d => !(decide (d.default = PyVal.empty))).map
      fun d => (d.name, d.default))
    (m.filter fun p =>
      !(((descs.filter fun d => decide (d.default = PyVal.empty)).map
        Descriptor.name).contains p.1))
    (by rw [hdftkeys]; exact hdftN) hkw3n
  have hnamecase : ∀ p ∈ m, ∃ d ∈ descs, d.name = p.1 := by
    intro p hp
    have : p.1 ∈ descs.map Descriptor.name := by
      rw [← hkeys]
      exact List.mem_map.mpr ⟨p, hp, rfl⟩
    obtain ⟨d, hd, hdn⟩ := List.mem_map.mp this
    exact ⟨d, hd, hdn⟩
  have hkw4 : (m.filter fun p =>
      !(((descs.filter fun d => decide (d.default = PyVal.empty)).map
        Descriptor.name).contains p.1)).filter
      (fun p => !((((descs.filter
        fun d => !(decide (d.default = PyVal.empty))).map
          fun d => (d.name, d.default)).map Prod.fst).contains p.1)) =
      [] := by
    rw [List.filter_eq_nil_iff]
    intro p hp
    have hpm : p ∈ m := List.mem_of_mem_filter hp
    have hpred1 := List.of_mem_filter hp
    obtain ⟨d, hd, hdn⟩ := hnamecase p hpm
    by_cases hdd : d.default = PyVal.empty
    · exfalso
      have : p.1 ∈ (descs.filter
          fun d => decide (d.default = PyVal.empty)).map Descriptor.name :=
        List.mem_map.mpr ⟨d, List.mem_filter.mpr ⟨hd, by simp [hdd]⟩, hdn⟩
      have hcont : (((descs.filter
          fun d => decide (d.default = PyVal.empty)).map
            Descriptor.name).contains p.1) = true := by simpa using this
      rw [hcont] at hpred1
      simp at hpred1
    · have : p.1 ∈ (descs.filter
          fun d => !(decide (d.default = PyVal.empty))).map
            Descriptor.name :=
        List.mem_map.mpr ⟨d, List.mem_filter.mpr ⟨hd, by simp [hdd]⟩, hdn⟩
      have hcont : ((((descs.filter
          fun d => !(decide (d.default = PyVal.empty))).map
            fun d => (d.name, d.default)).map Prod.fst).contains p.1) =
          true := by
        rw [hdftkeys]
        simpa using this
      rw [hcont]
      simp
  have hik1keys : (((descs.filter
      fun d => decide (d.default = PyVal.empty)).map
        Descriptor.name).filterMap
      (fun n => (alookup m n).map fun v => (n, v))).map Prod.fst =
      (descs.filter fun d => decide (d.default = PyVal.empty)).map
        Descriptor.name :=
    filterMap_lookup_keys m _ hreqSome
  have hik2eq : (((descs.filter
      fun d => !(decide (d.default = PyVal.empty))).map
        fun d => (d.name, d.default)).map
      (fun q => (q.1, (alookup (m.filter fun p =>
        !(((descs.filter fun d => decide (d.default = PyVal.empty)).map
          Descriptor.name).contains p.1)) q.1).getD q.2))) =
      ((descs.filter fun d => !(decide (d.default = PyVal.empty))).map
        fun d => (d.name, (alookup dict0 d.name).getD d.default)) := by
    rw [List.map_map]
    refine List.map_congr_left fun d hd => ?_
    have hdd : d ∈ descs := List.mem_of_mem_filter hd
    have hdnm : d.name ∈ (descs.filter
        fun d => !(decide (d.default = PyVal.empty))).map Descriptor.name :=
      List.mem_map.mpr ⟨d, hd, rfl⟩
    have hnreq : (((descs.filter
        fun d => decide (d.default = PyVal.empty)).map
          Descriptor.name).contains d.name) = false := by
      cases hc : (((descs.filter
          fun d => decide (d.default = PyVal.empty)).map
            Descriptor.name).contains d.name) with
      | false => rfl
      | true =>
        exfalso
        exact hdisjN (by simpa using hc) hdnm
    show ((d.name, d.default).1,
      (alookup _ (d.name, d.default).1).getD (d.name, d.default).2) = _
    rw [alookup_filter_key m (fun x =>
      !(((descs.filter fun d => decide (d.default = PyVal.empty)).map
        Descriptor.name).contains x)) _]
    simp only [hnreq, Bool.not_false, if_pos rfl]
    rw [show alookup m (d.name, d.default).1 =
      some ((alookup dict0 d.name).getD d.default) from hmlook d hdd]
    rfl
  have hik2ckeys : (((descs.filter
      fun d => !(decide (d.default = PyVal.empty))).map
        fun d => (d.name, (alookup dict0 d.name).getD d.default)).map
      Prod.fst) =
      (descs.filter fun d => !(decide (d.default = PyVal.empty))).map
        Descriptor.name := by
    rw [List.map_map]
    rfl
  have hvals : ∀ p ∈ (((descs.filter
      fun d => decide (d.default = PyVal.empty)).map
        Descriptor.name).filterMap
        (fun n => (alookup m n).map fun v => (n, v)) ++
      ((descs.filter fun d => !(decide (d.default = PyVal.empty))).map
        fun d => (d.name, (alookup dict0 d.name).getD d.default))),
      alookup m p.1 = some p.2 := by
    intro p hp
    rcases List.mem_append.mp hp with h | h
    · obtain ⟨n, hn, hmap⟩ := List.mem_filterMap.mp h
      cases ha : alookup m n with
      | none => rw [ha] at hmap; simp at hmap
      | some v =>
        rw [ha] at hmap
        simp only [Option.map_some'] at hmap
        cases hmap
        exact ha
    · obtain ⟨d, hd, hde⟩ := List.mem_map.mp h
      cases hde
      exact hmlook d (List.mem_of_mem_filter hd)
  have haup : aupdate
      (((descs.filter fun d => decide (d.default = PyVal.empty)).map
        Descriptor.name).filterMap
        (fun n => (alookup m n).map fun v => (n, v)))
      ((descs.filter fun d => !(decide (d.default = PyVal.empty))).map
        fun d => (d.name, (alookup dict0 d.name).getD d.default)) =
      (((descs.filter fun d => decide (d.default = PyVal.empty)).map
        Descriptor.name).filterMap
        (fun n => (alookup m n).map fun v => (n, v))) ++
      ((descs.filter fun d => !(decide (d.default = PyVal.empty))).map
        fun d => (d.name, (alookup dict0 d.name).getD d.default)) := by
    refine aupdate_append _ _ (by rw [hik2ckeys]; exact hdftN) ?_
    intro p hp
    have hpd : p.1 ∈ (descs.filter
        fun d => !(decide (d.default = PyVal.empty))).map
          Descriptor.name := by
      rw [← hik2ckeys]
      exact List.mem_map.mpr ⟨p, hp, rfl⟩
    rw [alookup_eq_none_iff]
    intro q hq hqp
    have hqd : q.1 ∈ (descs.filter
        fun d => decide (d.default = PyVal.empty)).map Descriptor.name := by
      rw [← hik1keys]
      exact List.mem_map.mpr ⟨q, hq, rfl⟩
    exact hdisjN (hqp ▸ hqd) hpd
  have hwkeys : ((((descs.filter
      fun d => decide (d.default = PyVal.empty)).map
        Descriptor.name).filterMap
        (fun n => (alookup m n).map fun v => (n, v)) ++
      ((descs.filter fun d => !(decide (d.default = PyVal.empty))).map
        fun d => (d.name, (alookup dict0 d.name).getD d.default))).map
      Prod.fst).Nodup := by
    rw [List.map_append, hik1keys, hik2ckeys]
    exact hnodNames
  have hwok : ∀ p ∈ (((descs.filter
      fun d => decide (d.default = PyVal.empty)).map
        Descriptor.name).filterMap
        (fun n => (alookup m n).map fun v => (n, v)) ++
      ((descs.filter fun d => !(decide (d.default = PyVal.empty))).map
        fun d => (d.name, (alookup dict0 d.name).getD d.default))),
      ∀ d, (autoClassOf clsName descs).descs.find?
        (fun d => d.name = p.1) = some d →
      d.on_setattr = none ∧
        (d.check_types = true → d.annotation p.2 = true) := by
    intro p hp d hfind
    have hdmem : d ∈ descs := List.mem_of_find?_eq_some hfind
    have hdname : d.name = p.1 := by
      have := List.find?_some hfind
      simpa using this
    refine ⟨hplain d hdmem, fun hct => ?_⟩
    refine hanns d hdmem hct p.2 ?_
    rw [hdname]
    exact hvals p hp
  obtain ⟨dictF, frozF2, hw, hchar⟩ := writeAll_spec
    (autoClassOf clsName descs)
    ((((descs.filter fun d => decide (d.default = PyVal.empty)).map
      Descriptor.name).filterMap
      (fun n => (alookup m n).map fun v => (n, v))) ++
      ((descs.filter fun d => !(decide (d.default = PyVal.empty))).map
        fun d => (d.name, (alookup dict0 d.name).getD d.default)))
    ({ dict := [], frozen := [], trace := [Event.superInit []] })
    hwkeys (fun p _ => rfl) hwok
  have hpp : priorityPass (autoClassOf clsName descs) {} m =
      ({}, m, [], none) := rfl
  refine ⟨{ dict := dictF,
            frozen := frozF2,
            trace := ([Event.superInit []] ++
              ((((descs.filter fun d => decide (d.default = PyVal.empty)).map
                Descriptor.name).filterMap
                (fun n => (alookup m n).map fun v => (n, v))) ++
                ((descs.filter
                  fun d => !(decide (d.default = PyVal.empty))).map
                  fun d =>
                    (d.name, (alookup dict0 d.name).getD d.default))).map
                fun p => Event.write p.1 p.2) ++
              [Event.hook "_post_init_"] }, ?_, ?_⟩
  · unfold auto_init
    rw [hpp]
    dsimp only
    rw [if_neg (by simp)]
    rw [handle_args_nil]
    dsimp only
    rw [show (autoClassOf clsName descs).kwargsNoDefault =
      ((descs.filter fun d => decide (d.default = PyVal.empty)).map
        Descriptor.name) from rfl]
    rw [show (autoClassOf clsName descs).kwargsWithDefault =
      ((descs.filter fun d => !(decide (d.default = PyVal.empty))).map
        fun d => (d.name, d.default)) from rfl]
    rw [hbr]
    dsimp only
    rw [hbd]
    dsimp only
    rw [hrqnil, hkw4, hik2eq]
    rw [show superCall (autoClassOf clsName descs) ({} : Sys) [] =
      (({ dict := [], frozen := [],
          trace := [Event.superInit []] } : Sys), none) from rfl]
    dsimp only
    rw [if_pos (show (([] : List String)).isEmpty = true from rfl)]
    rw [haup]
    rw [hw]
    rfl
  · dsimp only
    have hluF : ∀ d ∈ descs, alookup dictF d.name =
        some ((alookup dict0 d.name).getD d.default) := by
      intro d hd
      have hdin : d.name ∈ ((((descs.filter
          fun d => decide (d.default = PyVal.empty)).map
            Descriptor.name).filterMap
            (fun n => (alookup m n).map fun v => (n, v))) ++
          ((descs.filter fun d => !(decide (d.default = PyVal.empty))).map
            fun d => (d.name, (alookup dict0 d.name).getD d.default))).map
          Prod.fst := by
        rw [List.map_append, hik1keys, hik2ckeys]
        by_cases hdd : d.default = PyVal.empty
        · exact List.mem_append.mpr (Or.inl (List.mem_map.mpr
            ⟨d, List.mem_filter.mpr ⟨hd, by simp [hdd]⟩, rfl⟩))
        · exact List.mem_append.mpr (Or.inr (List.mem_map.mpr
            ⟨d, List.mem_filter.mpr ⟨hd, by simp [hdd]⟩, rfl⟩))
      have hsome := alookup_isSome_of_mem_keys _ d.name hdin
      cases ha : alookup ((((descs.filter
          fun d => decide (d.default = PyVal.empty)).map
            Descriptor.name).filterMap
            (fun n => (alookup m n).map fun v => (n, v))) ++
          ((descs.filter fun d => !(decide (d.default = PyVal.empty))).map
            fun d => (d.name, (alookup dict0 d.name).getD d.default)))
          d.name with
      | none => rw [ha] at hsome; simp at hsome
      | some w =>
        have hpm := alookup_some_mem _ _ _ ha
        have h1 : alookup m d.name = some w := by
          simpa using hvals (d.name, w) hpm
        have h2 := hmlook d hd
        rw [h1] at h2
        have hw2 := Option.some.inj h2
        rw [hchar d.name, ha]
        dsimp only
        rw [hw2]
    rw [get_dict_of_resolve cn dictF descs
      (by intro d hd; rw [hluF d hd]; simpa using hnem d hd)]
    congr 1
    rw [hshape]
    refine List.map_congr_left fun d hd => ?_
    rw [hluF d hd]
    rfl

/-- A two-field class for exercising the round-trip: a required field `a`
and a defaulted field `b`. -/
def c9descs : List Descriptor :=
  [{ name := "a" }, { name := "b", default := PyVal.pyInt 7 }]

theorem c9_get_dict_roundtrip_witness :
    ∃ stF, auto_init (autoClassOf "C" c9descs) {} []
        [("a", PyVal.pyInt 1), ("b", PyVal.pyInt 7)] = (stF, none) ∧
      get_dict c9descs "C" stF.dict =
        Except.ok [("a", PyVal.pyInt 1), ("b", PyVal.pyInt 7)] :=
  c9_get_dict_roundtrip "C" "C" c9descs [("a", PyVal.pyInt 1)]
    [("a", PyVal.pyInt 1), ("b", PyVal.pyInt 7)]
    (by decide)
    (by intro d hd; fin_cases hd <;> rfl)
    rfl
    (by intro d hd hct; fin_cases hd <;> simp [c9descs] at hct)
